import Mathlib

/-!
# mkasm.go: trampoline generator of golang.org/x/sys/unix

A shallow embedding of `unix/mkasm.go` and of the parts of the Go standard
library it calls (`strings`, `sort`, `strconv.Quote`, `fmt.Fprintf`, `os`), followed by
theorems about the generated assembly file and the darwin test fixture.

Go strings are modelled as lists of characters.  The input files are Go source
files, hence valid UTF-8 text; on valid UTF-8 the byte-wise library operations
used here (prefix and suffix tests, splitting on the one-byte separator `\n`,
byte-wise comparison) coincide with the same operations on code points.
-/

namespace Mkasm

/-- Go `string`, as the list of its code points. -/
abbrev GoString := List Char

/-! ## `strings` -/

/-- Go `strings.HasPrefix`: `len(s) >= len(prefix) && s[0:len(prefix)] == prefix`. -/
def HasPrefix (s pre : GoString) : Bool :=
  decide (s.length ≥ pre.length) && (s.take pre.length == pre)

/-- Go `strings.HasSuffix`: `len(s) >= len(suffix) && s[len(s)-len(suffix):] == suffix`. -/
def HasSuffix (s suf : GoString) : Bool :=
  decide (s.length ≥ suf.length) && (s.drop (s.length - suf.length) == suf)

/-- Go `strings.TrimPrefix`: `s[len(prefix):]` when `s` has the prefix, else `s`. -/
def TrimPrefix (s pre : GoString) : GoString :=
  if HasPrefix s pre then s.drop pre.length else s

/-- Go `strings.TrimSuffix`: `s[:len(s)-len(suffix)]` when `s` has the suffix, else `s`. -/
def TrimSuffix (s suf : GoString) : GoString :=
  if HasSuffix s suf then s.take (s.length - suf.length) else s

/-- Go `strings.Split(s, sep)` for a one-character separator: the pieces of `s`
between consecutive occurrences of `sep` (one more piece than occurrences). -/
def Split : GoString → Char → List GoString
  | [], _ => [[]]
  | c :: cs, sep =>
    if c = sep then [] :: Split cs sep
    else
      match Split cs sep with
      | [] => [[c]]
      | l :: ls => (c :: l) :: ls

/-- Go `strings.Join(elems, sep)`. -/
def Join : List GoString → GoString → GoString
  | [], _ => []
  | [a], _ => a
  | a :: b :: rest, sep => a ++ sep ++ Join (b :: rest) sep

/-! ## Fatal exits and the file system -/

/-- The `log.Fatalf` calls of the program, each with the operand of its message.
A fatal call prints the message and exits the process with status 1. -/
inductive Fatal where
  /-- `log.Fatalf("Usage: %s <goos> <arch>", os.Args[0])` -/
  | usage (args : List GoString)
  /-- `log.Fatalf("Unknown arch %q", arch)` -/
  | unknownArch (arch : GoString)
  /-- `log.Fatalf("Failed to read file: %v", err)` -/
  | readFile (fileName : GoString)
  /-- `log.Fatalf("Failed to write assembly file %q: %v", outFileName, err)` -/
  | writeAsm (fileName : GoString)
  /-- `log.Fatalf("Failed to write test file %q: %v", fileName, err)` -/
  | writeTest (fileName : GoString)
  deriving DecidableEq, Repr

/-- The files the process can see.  `read name` is the result of
`os.ReadFile(name)` (`none` for an error); `canWrite name` tells whether
`os.WriteFile(name, ...)` succeeds. -/
structure FS where
  read : GoString → Option GoString
  canWrite : GoString → Bool

/-- The effect of a successful `os.WriteFile(name, data, 0644)`. -/
def FS.write (fs : FS) (name data : GoString) : FS :=
  { fs with read := fun n => if n = name then some data else fs.read n }

/-! ## `archPtrSize` -/

/-- The `archPtrSize` function of mkasm.go: 4 for "386" and "arm", 8 for the five 64-bit
identifiers, a fatal exit for anything else. -/
def archPtrSize (arch : GoString) : Except Fatal Nat :=
  if arch = "386".toList ∨ arch = "arm".toList then .ok 4
  else if arch = "amd64".toList ∨ arch = "arm64".toList ∨ arch = "mips64".toList
      ∨ arch = "ppc64".toList ∨ arch = "riscv64".toList then .ok 8
  else .error (.unknownArch arch)

/-! ## `sort.Strings` -/

/-- Go's `<` on strings: lexicographic comparison, unit by unit. -/
def strLess : GoString → GoString → Bool
  | [], [] => false
  | [], _ :: _ => true
  | _ :: _, [] => false
  | a :: as, b :: bs =>
    if a.toNat < b.toNat then true
    else if b.toNat < a.toNat then false
    else strLess as bs

/-- The order `sort.Strings` arranges by: `a` may stand before `b` when `b < a` is false. -/
def strLE (a b : GoString) : Prop := strLess b a = false

instance strLE_decidable : DecidableRel strLE := fun a b =>
  inferInstanceAs (Decidable (strLess b a = false))

/-- Go `sort.Strings(x)`: `x` rearranged into increasing order. -/
def sortStrings (x : List GoString) : List GoString :=
  List.insertionSort strLE x

/-! ## `map[string]bool` -/

/-- Go `map[string]bool` as its list of entries, no key twice; the order of the list
stands for nothing observable (see `GoRuntime.mapRange`). -/
structure GoMap where
  entries : List (GoString × Bool)
  nodupKeys : (entries.map Prod.fst).Nodup

/-- The map literal `map[string]bool{}`. -/
def GoMap.empty : GoMap := ⟨[], List.nodup_nil⟩

/-- The index expression `m[k]`: the stored value, or the zero value `false`. -/
def GoMap.get (m : GoMap) (k : GoString) : Bool :=
  match m.entries.find? (fun e => e.1 = k) with
  | some e => e.2
  | none => false

/-- The assignment `m[k] = v`. -/
def GoMap.set (m : GoMap) (k : GoString) (v : Bool) : GoMap where
  entries := (k, v) :: m.entries.filter (fun e => e.1 ≠ k)
  nodupKeys := by
    rw [List.map_cons, List.nodup_cons]
    constructor
    · intro h
      obtain ⟨e, he, hk⟩ := List.mem_map.1 h
      have := (List.mem_filter.1 he).2
      simp only [ne_eq, decide_not, Bool.not_eq_true', decide_eq_false_iff_not] at this
      exact this hk
    · exact m.nodupKeys.sublist ((List.filter_sublist _).map _)

/-- The keys present in the map. -/
def GoMap.keys (m : GoMap) : List GoString :=
  m.entries.map Prod.fst

/-- What the program takes from the Go runtime and library without fixing it itself:
the order in which `range` enumerates a map (unspecified by the language; some
arrangement of the keys), and the Unicode table behind `strconv.IsPrint` for runes
above U+00FF. -/
structure GoRuntime where
  mapRange : GoMap → List GoString
  mapRange_perm : ∀ m, (mapRange m).Perm m.keys
  isPrintTable : Char → Bool

/-- The command line `os.Args`: the program name, then the arguments. -/
structure Args where
  prog : GoString
  rest : List GoString

/-! ## `strconv.Quote`, the `%q` verb applied to a string -/

/-- The digit table `lowerhex` of strconv/quote.go, indexed. -/
def lowerhex (n : Nat) : Char :=
  "0123456789abcdef".toList.getD n '0'

/-- Go `strconv.IsPrint`: decided by explicit ranges up to U+00FF, by table above. -/
def IsPrint (tbl : Char → Bool) (r : Char) : Bool :=
  if r.toNat ≤ 0xFF then
    if 0x20 ≤ r.toNat ∧ r.toNat ≤ 0x7E then true
    else if 0xA1 ≤ r.toNat ∧ r.toNat ≤ 0xFF then r.toNat != 0xAD
    else false
  else tbl r

/-- The `appendEscapedRune` function of strconv/quote.go with `quote = '"'`, `ASCIIonly = false`,
`graphicOnly = false`, on a valid rune. -/
def appendEscapedRune (tbl : Char → Bool) (buf : GoString) (r : Char) : GoString :=
  if r = '"' ∨ r = '\\' then buf ++ ['\\', r]
  else if IsPrint tbl r then buf ++ [r]
  else if r.toNat = 7 then buf ++ "\\a".toList
  else if r.toNat = 8 then buf ++ "\\b".toList
  else if r.toNat = 12 then buf ++ "\\f".toList
  else if r.toNat = 10 then buf ++ "\\n".toList
  else if r.toNat = 13 then buf ++ "\\r".toList
  else if r.toNat = 9 then buf ++ "\\t".toList
  else if r.toNat = 11 then buf ++ "\\v".toList
  else if r.toNat < 0x20 ∨ r.toNat = 0x7f then
    buf ++ "\\x".toList ++ [lowerhex (r.toNat / 16 % 16), lowerhex (r.toNat % 16)]
  else if r.toNat < 0x10000 then
    buf ++ "\\u".toList
      ++ [12, 8, 4, 0].map (fun sh => lowerhex (r.toNat / 2 ^ sh % 16))
  else
    buf ++ "\\U".toList
      ++ [28, 24, 20, 16, 12, 8, 4, 0].map (fun sh => lowerhex (r.toNat / 2 ^ sh % 16))

/-- Go `strconv.Quote(s)`, which is what `%q` prints for a string operand. -/
def Quote (tbl : Char → Bool) (s : GoString) : GoString :=
  s.foldl (appendEscapedRune tbl) ['"'] ++ ['"']

/-! ## `fmt.Fprintf` called with a format and no operands

The `doPrintf` method of fmt/print.go specialised to an empty operand list
(`len(a) = 0`, so `argNum` stays 0 and no operand is ever printed). -/

/-- The loop of `parsenum`, on the characters from `start` up to `end`: the number read so
far, whether a digit was seen, and how many characters were passed.  A number above
`1e6` gives up and jumps to `end`. -/
def parsenumLoop : List Char → Nat → Bool → Nat → Nat × Bool × Nat
  | [], num, isnum, k => (num, isnum, k)
  | c :: cs, num, isnum, k =>
    if '0'.toNat ≤ c.toNat ∧ c.toNat ≤ '9'.toNat then
      if num > 1000000 then (0, false, k + (c :: cs).length)
      else parsenumLoop cs (num * 10 + (c.toNat - '0'.toNat)) true (k + 1)
    else (num, isnum, k)

/-- The `parsenum(s, start, end)` function of fmt on the segment `s[start:end]`: `(num, isnum, newi - start)`. -/
def parsenum (seg : List Char) : Nat × Bool × Nat :=
  parsenumLoop seg 0 false 0

/-- Index of the first occurrence of `c`, if any. -/
def indexOfChar (c : Char) : List Char → Option Nat
  | [] => none
  | d :: ds => if d = c then some 0 else (indexOfChar c ds).map (· + 1)

/-- The `parseArgNumber(format)` function of fmt, where `format` begins with `[`: `(index, wid, ok)`. -/
def parseArgNumber (format : List Char) : Int × Nat × Bool :=
  if format.length < 3 then (0, 1, false)
  else
    match indexOfChar ']' (format.drop 1) with
    | none => (0, 1, false)
    | some j =>
      -- the closing bracket is at index `i = j + 1`
      let (width, ok, consumed) := parsenum ((format.drop 1).take j)
      if !ok || consumed ≠ j then (0, j + 2, false)
      else ((width : Int) - 1, j + 2, true)

/-- The `argNumber` method of fmt with `numArgs = 0`, on the rest of the format: the new rest, `found`,
and whether `goodArgNum` stays untouched (an index is never in range, so meeting
one always clears it). -/
def argNumber (s : List Char) : List Char × Bool × Bool :=
  match s with
  | '[' :: _ =>
    let (_, wid, ok) := parseArgNumber s
    (s.drop wid, ok, false)
  | _ => (s, false, true)

/-- The flag loop of `doPrintf`: passes over `#`, `0`, `+`, `-` and space. -/
def skipFlags : List Char → List Char
  | [] => []
  | c :: cs =>
    if c = '#' ∨ c = '0' ∨ c = '+' ∨ c = '-' ∨ c = ' ' then skipFlags cs else c :: cs

/-- The width step of `doPrintf` with no operands: the text written, the rest of the
format, `afterIndex` and `goodArgNum`.  A `*` finds no operand ("%!(BADWIDTH)"). -/
def doWidth (s : List Char) (afterIndex good : Bool) : List Char × List Char × Bool × Bool :=
  match s with
  | '*' :: t => ("%!(BADWIDTH)".toList, t, false, good)
  | _ =>
    let (_, widPresent, k) := parsenum s
    ([], s.drop k, afterIndex, good && !(afterIndex && widPresent))

/-- The precision step of `doPrintf` with no operands, entered on a `.`. -/
def doPrecision (s : List Char) (afterIndex good : Bool) :
    List Char × List Char × Bool × Bool :=
  match s with
  | '.' :: t =>
    let goodA := good && !afterIndex
    let (t1, ai, g) := argNumber t
    match t1 with
    | '*' :: t2 => ("%!(BADPREC)".toList, t2, false, goodA && g)
    | _ =>
      let (_, _, k) := parsenum t1
      ([], t1.drop k, ai, goodA && g)
  | _ => ([], s, afterIndex, good)

/-- The step `if !afterIndex { argNum, i, afterIndex = p.argNumber(...) }`. -/
def doLateIndex (s : List Char) (afterIndex good : Bool) : List Char × Bool :=
  if !afterIndex then
    let (r, _, g) := argNumber s
    (r, good && g)
  else (s, good)

/-- The last step of a directive: the verb.  `%%` prints a percent sign; any other verb
has no operand to print ("%!v(BADINDEX)" after a bad index, else "%!v(MISSING)"); a
format ending before the verb gives "%!(NOVERB)". -/
def doVerbChar (s : List Char) (good : Bool) : List Char × List Char :=
  match s with
  | [] => ("%!(NOVERB)".toList, [])
  | verb :: rest =>
    if verb = '%' then (['%'], rest)
    else if !good then ("%!".toList ++ [verb] ++ "(BADINDEX)".toList, rest)
    else ("%!".toList ++ [verb] ++ "(MISSING)".toList, rest)

/-- One directive of `doPrintf` with no operands, on the format after its `%`: the text
written and the rest of the format. -/
def doVerb (s0 : List Char) : List Char × List Char :=
  let (s2, afterIndex1, good1) := argNumber (skipFlags s0)
  let (w, s3, afterIndex2, good2) := doWidth s2 afterIndex1 good1
  let (pw, s4, afterIndex3, good3) := doPrecision s3 afterIndex2 good2
  let (s5, good4) := doLateIndex s4 afterIndex3 good3
  let (v, rest) := doVerbChar s5 good4
  (w ++ pw ++ v, rest)

/-- The `formatLoop` of `doPrintf`: copy up to the next `%`, process the directive, go on
with the rest.  Each round with a directive consumes at least its `%`. -/
def doPrintfLoop : Nat → GoString → GoString → GoString
  | 0, buf, _ => buf
  | n + 1, buf, format =>
    let lit := format.takeWhile (fun c => c ≠ '%')
    match format.dropWhile (fun c => c ≠ '%') with
    | [] => buf ++ lit
    | _ :: afterPercent =>
      let (w, rest) := doVerb afterPercent
      doPrintfLoop n (buf ++ lit ++ w) rest

/-- Go `fmt.Fprintf(&out, format)` with no operands: the buffer after the call. -/
def Fprintf (out format : GoString) : GoString :=
  doPrintfLoop (format.length + 1) out format

/-! ## `generateASMFile` -/

/-- The constant `prefix` of the scan, `"var "`. -/
def declPrefix : GoString := "var ".toList

/-- The constant `suffix` of the scan, `"_trampoline_addr uintptr"`. -/
def declSuffix : GoString := "_trampoline_addr uintptr".toList

/-- Lines 43-46 of the scan: a line without the prefix or without the suffix is skipped
(`continue`); otherwise `fn` is the line with the prefix, then the suffix, trimmed. -/
def declName (line : GoString) : Option GoString :=
  if !HasPrefix line declPrefix || !HasSuffix line declSuffix then none
  else some (TrimSuffix (TrimPrefix line declPrefix) declSuffix)

/-- The two variables the scan updates. -/
structure ScanState where
  trampolines : GoMap
  orderedTrampolines : List GoString

/-- Lines 47-50: `fn` is appended and recorded unless `trampolines[fn]` already holds. -/
def recordName (st : ScanState) (fn : GoString) : ScanState :=
  if !st.trampolines.get fn then
    { orderedTrampolines := st.orderedTrampolines ++ [fn],
      trampolines := st.trampolines.set fn true }
  else st

/-- The body of the inner loop, for one line. -/
def scanLine (st : ScanState) (line : GoString) : ScanState :=
  match declName line with
  | none => st
  | some fn => recordName st fn

/-- The inner loop over `strings.Split(string(in), "\n")`. -/
def scanFile (st : ScanState) (content : GoString) : ScanState :=
  (Split content '\n').foldl scanLine st

/-- The outer loop over `inFileNames`: each file is read, then scanned; a read error is
fatal at once. -/
def scanFiles (fs : FS) : List GoString → ScanState → Except Fatal ScanState
  | [], st => .ok st
  | inFileName :: more, st =>
    match fs.read inFileName with
    | none => .error (.readFile inFileName)
    | some content => scanFiles fs more (scanFile st content)

/-- The four `Fprintf` calls that start the assembly buffer. -/
def asmHeader (args : Args) : GoString :=
  "// go run mkasm.go ".toList ++ Join args.rest " ".toList ++ "\n".toList
    ++ "// Code generated by the command above; DO NOT EDIT.\n".toList
    ++ "\n".toList
    ++ "#include \"textflag.h\"\n".toList

/-- The body of the emission loop for one routine, appending to the buffer `out`. -/
def emitTrampoline (goos arch : GoString) (ptrSize : Nat) (out fn : GoString) : GoString :=
  let out := out ++ "\nTEXT ".toList ++ fn ++ "_trampoline<>(SB),NOSPLIT,$0-0\n".toList
  let out :=
    if goos = "openbsd".toList ∧ arch = "ppc64".toList then
      (out ++ "\tCALL\t".toList ++ fn ++ "(SB)\n".toList) ++ "\tRET\n".toList
    else
      out ++ "\tJMP\t".toList ++ fn ++ "(SB)\n".toList
  let out := out ++ "GLOBL\t·".toList ++ fn ++ "_trampoline_addr(SB), RODATA, $".toList
    ++ Nat.toDigits 10 ptrSize ++ "\n".toList
  out ++ "DATA\t·".toList ++ fn ++ "_trampoline_addr(SB)/".toList
    ++ Nat.toDigits 10 ptrSize ++ ", $".toList ++ fn ++ "_trampoline<>(SB)\n".toList

/-- The buffer `out` at the `os.WriteFile` call: header, then one round of the emission
loop per name of `orderedTrampolines`. -/
def asmText (args : Args) (goos arch : GoString) (ptrSize : Nat)
    (orderedTrampolines : List GoString) : GoString :=
  orderedTrampolines.foldl (emitTrampoline goos arch ptrSize) (asmHeader args)

/-- The `generateASMFile` function of mkasm.go: the file system after the call and either the fatal exit
taken or the returned map. -/
def generateASMFile (args : Args) (goos arch : GoString) (inFileNames : List GoString)
    (outFileName : GoString) (fs : FS) : FS × Except Fatal GoMap :=
  match scanFiles fs inFileNames ⟨GoMap.empty, []⟩ with
  | .error e => (fs, .error e)
  | .ok st =>
    match archPtrSize arch with
    | .error e => (fs, .error e)
    | .ok ptrSize =>
      let out := asmText args goos arch ptrSize st.orderedTrampolines
      if fs.canWrite outFileName then (fs.write outFileName out, .ok st.trampolines)
      else (fs, .error (.writeAsm outFileName))

/-! ## `writeDarwinTest` -/

/-- The string `fmt.Sprintf("\t{%q, %s_trampoline_addr},\n", strings.TrimPrefix(fn, prefix), fn)`
with `prefix = "libc_"`. -/
def darwinTestLine (tbl : Char → Bool) (fn : GoString) : GoString :=
  "\t\x7b".toList ++ Quote tbl (TrimPrefix fn "libc_".toList) ++ ", ".toList ++ fn
    ++ "_trampoline_addr\x7d,\n".toList

/-- The loop over `sortedTrampolines`: each round passes the `Sprintf` result to
`fmt.Fprintf` as its format. -/
def darwinTestLines (tbl : Char → Bool) (sortedTrampolines : List GoString) : GoString :=
  sortedTrampolines.foldl (fun out fn => Fprintf out (darwinTestLine tbl fn)) []

/-- The constant `darwinTestTemplate` filled with its three string operands. -/
def darwinTestTemplate (cmd arch lines : GoString) : GoString :=
  "// go run mkasm.go ".toList ++ cmd ++ "\n".toList
    ++ "// Code generated by the command above; DO NOT EDIT.\n".toList
    ++ "\n".toList
    ++ "//go:build darwin && go1.12\n".toList
    ++ "\n".toList
    ++ "package unix\n".toList
    ++ "\n".toList
    ++ "// All the _trampoline functions in zsyscall_darwin_".toList ++ arch ++ ".s.\n".toList
    ++ "var darwinTests = [...]darwinTest\x7b\n".toList
    ++ lines ++ "\x7d\n".toList

/-- The `writeDarwinTest` function of mkasm.go. -/
def writeDarwinTest (rt : GoRuntime) (args : Args) (trampolines : GoMap)
    (fileName arch : GoString) (fs : FS) : FS × Except Fatal Unit :=
  let sortedTrampolines := sortStrings (rt.mapRange trampolines)
  let lines := darwinTestLines rt.isPrintTable sortedTrampolines
  let out := darwinTestTemplate (Join args.rest " ".toList) arch lines
  if fs.canWrite fileName then (fs.write fileName out, .ok ())
  else (fs, .error (.writeTest fileName))

/-! ## `main` -/

/-- The `main` function of mkasm.go, run on the command line `args` and the file system `fs`. -/
def main (rt : GoRuntime) (args : Args) (fs : FS) : FS × Except Fatal Unit :=
  match args.rest with
  | [goos, arch] =>
    let syscallFilename := "syscall_".toList ++ goos ++ ".go".toList
    let syscallArchFilename := "syscall_".toList ++ goos ++ "_".toList ++ arch ++ ".go".toList
    let zsyscallArchFilename := "zsyscall_".toList ++ goos ++ "_".toList ++ arch ++ ".go".toList
    let zsyscallASMFileName := "zsyscall_".toList ++ goos ++ "_".toList ++ arch ++ ".s".toList
    let inFileNames := [syscallFilename, syscallArchFilename, zsyscallArchFilename]
    match generateASMFile args goos arch inFileNames zsyscallASMFileName fs with
    | (fs1, .error e) => (fs1, .error e)
    | (fs1, .ok trampolines) =>
      if goos = "darwin".toList then
        writeDarwinTest rt args trampolines
          ("darwin_".toList ++ arch ++ "_test.go".toList) arch fs1
      else (fs1, .ok ())
  | _ => (fs, .error (.usage (args.prog :: args.rest)))

/-! ## Vocabulary of the statements -/

/-- The lines the scan visits, in the order it visits them: the pieces of each readable
input file, file after file. -/
def inputLines (fs : FS) (inFileNames : List GoString) : List GoString :=
  (inFileNames.filterMap fs.read).flatMap (fun content => Split content '\n')

/-- The names of the declaration lines among `lines`, in order, repetitions included. -/
def declNames (lines : List GoString) : List GoString :=
  lines.filterMap declName

/-- The names of `names` not already in `acc`, each once, in order of first occurrence,
put after `acc`. -/
def firstSeen (acc : List GoString) : List GoString → List GoString
  | [] => acc
  | n :: ns => if n ∈ acc then firstSeen acc ns else firstSeen (acc ++ [n]) ns

/-- What one round of the emission loop adds to the buffer for `fn`. -/
def trampolineBlock (goos arch : GoString) (ptrSize : Nat) (fn : GoString) : GoString :=
  emitTrampoline goos arch ptrSize [] fn

/-- The blocks of a list of names, one after the other. -/
def trampolineBlocks (goos arch : GoString) (ptrSize : Nat) (names : List GoString) :
    GoString :=
  names.flatMap (trampolineBlock goos arch ptrSize)

/-- The map and the sequence of a scan state hold the same names. -/
def ScanState.Agree (st : ScanState) : Prop :=
  (∀ k, st.trampolines.get k = true ↔ k ∈ st.orderedTrampolines) ∧
  st.trampolines.keys.Perm st.orderedTrampolines

/-! ## A sample run -/

/-- A file system with the three darwin/amd64 input files: `libc_foo` is declared in the
first, `libc_bar` and again `libc_foo` in the third; every file can be written. -/
def sampleFS : FS where
  read := fun n =>
    if n = "syscall_darwin.go".toList then
      some "package unix\n\nvar libc_foo_trampoline_addr uintptr\n".toList
    else if n = "syscall_darwin_amd64.go".toList then
      some "package unix\n".toList
    else if n = "zsyscall_darwin_amd64.go".toList then
      some "var libc_bar_trampoline_addr uintptr\nvar libc_foo_trampoline_addr uintptr".toList
    else none
  canWrite := fun _ => true

/-- The names of the three input files of a darwin/amd64 run. -/
def sampleInputs : List GoString :=
  ["syscall_darwin.go".toList, "syscall_darwin_amd64.go".toList,
    "zsyscall_darwin_amd64.go".toList]

/-- The command line `mkasm darwin amd64`. -/
def sampleArgs : Args := ⟨"mkasm".toList, ["darwin".toList, "amd64".toList]⟩

/-- A runtime whose `range` enumerates a map in the order of its entry list and whose
table calls no rune above U+00FF printable. -/
def sampleRuntime : GoRuntime where
  mapRange := fun m => m.keys
  mapRange_perm := fun _ => List.Perm.refl _
  isPrintTable := fun _ => false

/-- The text made of the given lines, each one ended by a newline. -/
def unlines (ls : List GoString) : GoString :=
  ls.flatMap (fun l => l ++ ['\n'])

/-- The lines of `text` (its pieces between newlines) that begin with `pre`. -/
def linesWith (pre text : GoString) : List GoString :=
  (Split text '\n').filter (fun l => HasPrefix l pre)

/-- The line that opens the block of `fn`. -/
def textLine (fn : GoString) : GoString :=
  "TEXT ".toList ++ fn ++ "_trampoline<>(SB),NOSPLIT,$0-0".toList

/-- The line declaring the global of `fn`, of size `P` (in decimal). -/
def globlLine (P fn : GoString) : GoString :=
  "GLOBL\t·".toList ++ fn ++ "_trampoline_addr(SB), RODATA, $".toList ++ P

/-- The line binding the global of `fn` to the label of its block. -/
def dataLine (P fn : GoString) : GoString :=
  "DATA\t·".toList ++ fn ++ "_trampoline_addr(SB)/".toList ++ P ++ ", $".toList ++ fn
    ++ "_trampoline<>(SB)".toList

/-- The tail-jump body. -/
def jmpBody (fn : GoString) : List GoString :=
  ["\tJMP\t".toList ++ fn ++ "(SB)".toList]

/-- The call-then-return body. -/
def callRetBody (fn : GoString) : List GoString :=
  ["\tCALL\t".toList ++ fn ++ "(SB)".toList, "\tRET".toList]

/-- The first four lines of the assembly file. -/
def headerLines (args : Args) : List GoString :=
  ["// go run mkasm.go ".toList ++ Join args.rest " ".toList,
   "// Code generated by the command above; DO NOT EDIT.".toList,
   [],
   "#include \"textflag.h\"".toList]

/-- The lines of the block of `fn`: an empty line, the opening line, the body, the two
lines of the data entry. -/
def blockLines (goos arch P fn : GoString) : List GoString :=
  [[], textLine fn]
    ++ (if goos = "openbsd".toList ∧ arch = "ppc64".toList then callRetBody fn else jmpBody fn)
    ++ [globlLine P fn, dataLine P fn]

/-- A command line whose operating-system argument holds a newline:
`mkasm $'linux\nTEXT x' amd64`. -/
def newlineArgs : Args := ⟨"mkasm".toList, ["linux\nTEXT x".toList, "amd64".toList]⟩

/-- The three input files `main` derives from `newlineArgs`. -/
def newlineInputs : List GoString :=
  ["syscall_linux\nTEXT x.go".toList, "syscall_linux\nTEXT x_amd64.go".toList,
    "zsyscall_linux\nTEXT x_amd64.go".toList]

/-- A file system where these three files exist, none of them with a declaration line. -/
def newlineFS : FS where
  read := fun n => if n ∈ newlineInputs then some "package unix\n".toList else none
  canWrite := fun _ => true

/-- The sample file system with one more line in the first input file: inside a block
comment, a line of the declaration pattern whose name holds a percent sign. -/
def percentFS : FS where
  read := fun n =>
    if n = "syscall_darwin.go".toList then
      some "package unix\n\n/*\nvar libc_%d_trampoline_addr uintptr\n*/\n".toList
    else if n = "syscall_darwin_amd64.go".toList then
      some "package unix\n".toList
    else if n = "zsyscall_darwin_amd64.go".toList then
      some "package unix\n".toList
    else none
  canWrite := fun _ => true

/-- A file system for the end-to-end scenario: `libc_foo` is declared in the first input
file and `libc_bar` in the third, and nothing else is declared. -/
def fooBarFS : FS where
  read := fun n =>
    if n = "syscall_darwin.go".toList then
      some "package unix\n\nvar libc_foo_trampoline_addr uintptr\n".toList
    else if n = "syscall_darwin_amd64.go".toList then
      some "package unix\n".toList
    else if n = "zsyscall_darwin_amd64.go".toList then
      some "var libc_bar_trampoline_addr uintptr\n".toList
    else none
  canWrite := fun _ => true

/-- The assembly file of the end-to-end scenario. -/
def fooBarAsm : GoString :=
  ("// go run mkasm.go darwin amd64\n"
    ++ "// Code generated by the command above; DO NOT EDIT.\n"
    ++ "\n"
    ++ "#include \"textflag.h\"\n"
    ++ "\n"
    ++ "TEXT libc_foo_trampoline<>(SB),NOSPLIT,$0-0\n"
    ++ "\tJMP\tlibc_foo(SB)\n"
    ++ "GLOBL\t·libc_foo_trampoline_addr(SB), RODATA, $8\n"
    ++ "DATA\t·libc_foo_trampoline_addr(SB)/8, $libc_foo_trampoline<>(SB)\n"
    ++ "\n"
    ++ "TEXT libc_bar_trampoline<>(SB),NOSPLIT,$0-0\n"
    ++ "\tJMP\tlibc_bar(SB)\n"
    ++ "GLOBL\t·libc_bar_trampoline_addr(SB), RODATA, $8\n"
    ++ "DATA\t·libc_bar_trampoline_addr(SB)/8, $libc_bar_trampoline<>(SB)\n").toList

/-- The test fixture of the end-to-end scenario. -/
def barFooFixture : GoString :=
  ("// go run mkasm.go darwin amd64\n"
    ++ "// Code generated by the command above; DO NOT EDIT.\n"
    ++ "\n"
    ++ "//go:build darwin && go1.12\n"
    ++ "\n"
    ++ "package unix\n"
    ++ "\n"
    ++ "// All the _trampoline functions in zsyscall_darwin_amd64.s.\n"
    ++ "var darwinTests = [...]darwinTest\x7b\n"
    ++ "\t\x7b\"bar\", libc_bar_trampoline_addr\x7d,\n"
    ++ "\t\x7b\"foo\", libc_foo_trampoline_addr\x7d,\n"
    ++ "\x7d\n").toList

/-! ## The file operations of a run -/

/-- A call of the `os` package made by the program. -/
inductive FileOp where
  /-- `os.ReadFile(name)` -/
  | read (name : GoString)
  /-- `os.WriteFile(name, data, 0644)` -/
  | write (name data : GoString)
  deriving DecidableEq, Repr

/-- The `os.ReadFile` calls of the outer loop of `generateASMFile`, in order: one per
input file, up to and including the first that fails. -/
def scanFilesOps (fs : FS) : List GoString → List FileOp
  | [] => []
  | inFileName :: more =>
    .read inFileName ::
      (match fs.read inFileName with
       | none => []
       | some _ => scanFilesOps fs more)

/-- The `os` calls of `generateASMFile`, in order: the reads of the scan, then, when
the scan and `archPtrSize` have returned, the one `os.WriteFile` of the buffer. -/
def generateASMFileOps (args : Args) (goos arch : GoString) (inFileNames : List GoString)
    (outFileName : GoString) (fs : FS) : List FileOp :=
  scanFilesOps fs inFileNames ++
    (match scanFiles fs inFileNames ⟨GoMap.empty, []⟩ with
     | .error _ => []
     | .ok st =>
       match archPtrSize arch with
       | .error _ => []
       | .ok ptrSize =>
         [.write outFileName (asmText args goos arch ptrSize st.orderedTrampolines)])

/-- The one `os` call of `writeDarwinTest`: the `os.WriteFile` of the filled template. -/
def writeDarwinTestOps (rt : GoRuntime) (args : Args) (trampolines : GoMap)
    (fileName arch : GoString) : List FileOp :=
  [.write fileName
    (darwinTestTemplate (Join args.rest " ".toList) arch
      (darwinTestLines rt.isPrintTable (sortStrings (rt.mapRange trampolines))))]

/-- The `os` calls of `main`, in order. -/
def mainOps (rt : GoRuntime) (args : Args) (fs : FS) : List FileOp :=
  match args.rest with
  | [goos, arch] =>
    let inFileNames :=
      ["syscall_".toList ++ goos ++ ".go".toList,
       "syscall_".toList ++ goos ++ "_".toList ++ arch ++ ".go".toList,
       "zsyscall_".toList ++ goos ++ "_".toList ++ arch ++ ".go".toList]
    let zsyscallASMFileName := "zsyscall_".toList ++ goos ++ "_".toList ++ arch ++ ".s".toList
    generateASMFileOps args goos arch inFileNames zsyscallASMFileName fs ++
      (match generateASMFile args goos arch inFileNames zsyscallASMFileName fs with
       | (_, .error _) => []
       | (_, .ok trampolines) =>
         if goos = "darwin".toList then
           writeDarwinTestOps rt args trampolines
             ("darwin_".toList ++ arch ++ "_test.go".toList) arch
         else [])
  | _ => []

/-- The file system after a sequence of `os` calls: a read changes nothing, a write
takes effect when it succeeds. -/
def FS.after (fs : FS) : List FileOp → FS
  | [] => fs
  | .read _ :: ops => fs.after ops
  | .write name data :: ops =>
    if fs.canWrite name then (fs.write name data).after ops else fs.after ops

/-- The names read by a sequence of `os` calls, in order. -/
def readNames : List FileOp → List GoString
  | [] => []
  | .read name :: ops => name :: readNames ops
  | .write _ _ :: ops => readNames ops

/-- The names written by a sequence of `os` calls, in order. -/
def writtenNames : List FileOp → List GoString
  | [] => []
  | .read _ :: ops => writtenNames ops
  | .write name _ :: ops => name :: writtenNames ops

/-- The three input file names `main` derives from its two arguments (lines 121-123 and
126-130), in the order of `inFileNames`. -/
def inputFileNames (goos arch : GoString) : List GoString :=
  ["syscall_".toList ++ goos ++ ".go".toList,
   "syscall_".toList ++ goos ++ "_".toList ++ arch ++ ".go".toList,
   "zsyscall_".toList ++ goos ++ "_".toList ++ arch ++ ".go".toList]

/-- The name `zsyscallASMFileName` that `main` derives (line 124). -/
def asmFileName (goos arch : GoString) : GoString :=
  "zsyscall_".toList ++ goos ++ "_".toList ++ arch ++ ".s".toList

/-- The name `fmt.Sprintf("darwin_%s_test.go", arch)` of the fixture (line 135). -/
def testFileName (arch : GoString) : GoString :=
  "darwin_".toList ++ arch ++ "_test.go".toList

/-- The text of the fixture for a set of names given as a map: the template filled with
the command line, the architecture and what the loop prints for each key in sorted
order. -/
def fixtureText (tbl : Char → Bool) (args : Args) (arch : GoString) (m : GoMap) : GoString :=
  darwinTestTemplate (Join args.rest " ".toList) arch
    ((sortStrings m.keys).flatMap (fun fn => Fprintf [] (darwinTestLine tbl fn)))

/-- The sample file system without its second input file: "syscall_darwin_amd64.go"
cannot be read, the first and the third file are as in `sampleFS`. -/
def missingFileFS : FS where
  read := fun n => if n = "syscall_darwin_amd64.go".toList then none else sampleFS.read n
  canWrite := fun _ => true

/-- A runtime whose `range` enumerates a map in the reverse of the order of its entry
list. -/
def reverseRuntime : GoRuntime where
  mapRange := fun m => m.keys.reverse
  mapRange_perm := fun m => List.reverse_perm m.keys
  isPrintTable := fun _ => false

/-- The file system of `fooBarFS` with the two declarations exchanged: `libc_bar` is
declared in the first input file and `libc_foo` in the third. -/
def barFooFS : FS where
  read := fun n =>
    if n = "syscall_darwin.go".toList then
      some "package unix\n\nvar libc_bar_trampoline_addr uintptr\n".toList
    else if n = "syscall_darwin_amd64.go".toList then
      some "package unix\n".toList
    else if n = "zsyscall_darwin_amd64.go".toList then
      some "var libc_foo_trampoline_addr uintptr\n".toList
    else none
  canWrite := fun _ => true

/-- The sample file system with two declarations in the first input file, `libc_z` and,
inside a block comment, a name with a percent sign followed by eight digits. -/
def mergedFS : FS where
  read := fun n =>
    if n = "syscall_darwin.go".toList then
      some ("package unix\n\nvar libc_z_trampoline_addr uintptr\n"
        ++ "/*\nvar libc_%12345678d_trampoline_addr uintptr\n*/\n").toList
    else if n = "syscall_darwin_amd64.go".toList then
      some "package unix\n".toList
    else if n = "zsyscall_darwin_amd64.go".toList then
      some "package unix\n".toList
    else none
  canWrite := fun _ => true

/-! # Theorems -/

/-! ## `archPtrSize` -/

/-- A returned pointer size is 4, for one of the two 32-bit identifiers, or 8, for one
of the five 64-bit ones. -/
theorem archPtrSize_ok (arch : GoString) (n : Nat) (h : archPtrSize arch = .ok n) :
    (n = 4 ∧ (arch = "386".toList ∨ arch = "arm".toList)) ∨
    (n = 8 ∧ (arch = "amd64".toList ∨ arch = "arm64".toList ∨ arch = "mips64".toList
        ∨ arch = "ppc64".toList ∨ arch = "riscv64".toList)) := by
  unfold archPtrSize at h
  by_cases h4 : arch = "386".toList ∨ arch = "arm".toList
  · rw [if_pos h4] at h
    injection h with h
    exact Or.inl ⟨h.symm, h4⟩
  · rw [if_neg h4] at h
    by_cases h8 : arch = "amd64".toList ∨ arch = "arm64".toList ∨ arch = "mips64".toList
        ∨ arch = "ppc64".toList ∨ arch = "riscv64".toList
    · rw [if_pos h8] at h
      injection h with h
      exact Or.inr ⟨h.symm, h8⟩
    · rw [if_neg h8] at h
      cases h

/-- The only fatal exit of `archPtrSize` is "Unknown arch", with its argument. -/
theorem archPtrSize_error (arch : GoString) (e : Fatal) (h : archPtrSize arch = .error e) :
    e = .unknownArch arch := by
  unfold archPtrSize at h
  split_ifs at h
  injection h with h
  exact h.symm

/-- C1: `archPtrSize` returns 4 exactly for "386" and "arm", 8 exactly for "amd64", "arm64",
"mips64", "ppc64" and "riscv64", and exits fatally (no pointer size) exactly for every
other string; so a returned size is 4 or 8 and the only fatal exit is "Unknown arch". -/
theorem archPtrSize_table (arch : GoString) :
    (archPtrSize arch = .ok 4 ↔ arch = "386".toList ∨ arch = "arm".toList) ∧
    (archPtrSize arch = .ok 8 ↔
      arch = "amd64".toList ∨ arch = "arm64".toList ∨ arch = "mips64".toList
        ∨ arch = "ppc64".toList ∨ arch = "riscv64".toList) ∧
    (archPtrSize arch = .error (.unknownArch arch) ↔
      ¬ (arch = "386".toList ∨ arch = "arm".toList ∨ arch = "amd64".toList
        ∨ arch = "arm64".toList ∨ arch = "mips64".toList ∨ arch = "ppc64".toList
        ∨ arch = "riscv64".toList)) ∧
    (∀ n, archPtrSize arch = .ok n → n = 4 ∨ n = 8) ∧
    (∀ e, archPtrSize arch = .error e → e = .unknownArch arch) := by
  unfold archPtrSize
  by_cases h4 : arch = "386".toList ∨ arch = "arm".toList
  · rw [if_pos h4]
    refine ⟨iff_of_true rfl h4, iff_of_false (by simp) ?_, iff_of_false (by simp) ?_, ?_, ?_⟩
    · rcases h4 with h | h <;> subst h <;> decide
    · intro hn; exact hn (by tauto)
    · intro n h; injection h with h; exact Or.inl h.symm
    · intro e h; cases h
  · rw [if_neg h4]
    by_cases h8 : arch = "amd64".toList ∨ arch = "arm64".toList ∨ arch = "mips64".toList
        ∨ arch = "ppc64".toList ∨ arch = "riscv64".toList
    · rw [if_pos h8]
      refine ⟨iff_of_false (by simp) h4, iff_of_true rfl h8, iff_of_false (by simp) ?_, ?_, ?_⟩
      · intro hn; exact hn (by tauto)
      · intro n h; injection h with h; exact Or.inr h.symm
      · intro e h; cases h
    · rw [if_neg h8]
      refine ⟨iff_of_false (by simp) h4, iff_of_false (by simp) h8, iff_of_true rfl ?_, ?_, ?_⟩
      · tauto
      · intro n h; cases h
      · intro e h; injection h with h; exact h.symm

/-! ## The `strings` helpers -/

theorem HasPrefix_iff (s pre : GoString) : HasPrefix s pre = true ↔ pre <+: s := by
  unfold HasPrefix
  rw [Bool.and_eq_true, decide_eq_true_iff, beq_iff_eq, List.prefix_iff_eq_take]
  constructor
  · rintro ⟨_, h⟩; exact h.symm
  · intro h
    refine ⟨?_, h.symm⟩
    have := congrArg List.length h
    rw [List.length_take] at this
    omega

theorem HasSuffix_iff (s suf : GoString) : HasSuffix s suf = true ↔ suf <:+ s := by
  unfold HasSuffix
  rw [Bool.and_eq_true, decide_eq_true_iff, beq_iff_eq, List.suffix_iff_eq_drop]
  constructor
  · rintro ⟨_, h⟩; exact h.symm
  · intro h
    refine ⟨?_, h.symm⟩
    have := congrArg List.length h
    rw [List.length_drop] at this
    omega

theorem TrimPrefix_append (pre r : GoString) : TrimPrefix (pre ++ r) pre = r := by
  unfold TrimPrefix
  rw [if_pos ((HasPrefix_iff _ _).2 (List.prefix_append _ _))]
  exact List.drop_left _ _

theorem TrimSuffix_append (r suf : GoString) : TrimSuffix (r ++ suf) suf = r := by
  unfold TrimSuffix
  rw [if_pos ((HasSuffix_iff _ _).2 (List.suffix_append _ _))]
  rw [List.length_append, Nat.add_sub_cancel]
  exact List.take_left _ _

/-- A line with both markers has them apart: the name sits between them. -/
theorem decl_markers_apart (line : GoString)
    (hp : declPrefix <+: line) (hs : declSuffix <:+ line) :
    ∃ fn, line = declPrefix ++ fn ++ declSuffix := by
  obtain ⟨r, hr⟩ := hp
  obtain ⟨a, ha⟩ := hs
  have h := hr.trans ha.symm
  rcases List.append_eq_append_iff.1 h with ⟨a', h1, h2⟩ | ⟨c', h1, h2⟩
  · exact ⟨a', by rw [← hr, h2, List.append_assoc]⟩
  · cases c' with
    | nil =>
      refine ⟨[], ?_⟩
      rw [← hr]
      simp only [List.nil_append] at h2
      rw [h2, List.append_nil]
    | cons d c'' =>
      exfalso
      have hd : d = '_' := by
        have := congrArg List.head? h2
        simpa [declSuffix] using this.symm
      subst hd
      have hmem : '_' ∈ declPrefix := by
        rw [h1]; simp
      revert hmem
      decide

theorem declName_of_decl (fn : GoString) :
    declName (declPrefix ++ fn ++ declSuffix) = some fn := by
  have hp : HasPrefix (declPrefix ++ fn ++ declSuffix) declPrefix = true :=
    (HasPrefix_iff _ _).2 ⟨fn ++ declSuffix, by rw [List.append_assoc]⟩
  have hs : HasSuffix (declPrefix ++ fn ++ declSuffix) declSuffix = true :=
    (HasSuffix_iff _ _).2 ⟨declPrefix ++ fn, rfl⟩
  unfold declName
  rw [hp, hs]
  simp only [Bool.not_true, Bool.or_self, Bool.false_eq_true, if_false]
  rw [List.append_assoc, TrimPrefix_append, TrimSuffix_append]

theorem declName_isSome (line : GoString) (h : (declName line).isSome = true) :
    declPrefix <+: line ∧ declSuffix <:+ line := by
  unfold declName at h
  by_cases hc : (!HasPrefix line declPrefix || !HasSuffix line declSuffix) = true
  · rw [if_pos hc] at h; simp at h
  · simp only [Bool.or_eq_true, Bool.not_eq_true', not_or, Bool.not_eq_false] at hc
    exact ⟨(HasPrefix_iff _ _).1 hc.1, (HasSuffix_iff _ _).1 hc.2⟩

/-- The name extracted from a line, put between the two markers, is the line. -/
theorem declName_eq_some (line fn : GoString) (h : declName line = some fn) :
    line = declPrefix ++ fn ++ declSuffix := by
  have hsome : (declName line).isSome = true := by rw [h]; rfl
  obtain ⟨hp, hs⟩ := declName_isSome line hsome
  obtain ⟨fn', hfn'⟩ := decl_markers_apart line hp hs
  have h2 := declName_of_decl fn'
  rw [← hfn', h] at h2
  injection h2 with h2
  rw [h2]
  exact hfn'

/-- C2: a line of the scan is treated as a declaration exactly when it starts with
"var " and ends with "_trampoline_addr uintptr", and the name extracted from such a line
gives the line back when the two markers are put around it again. -/
theorem declName_spec (line : GoString) :
    ((declName line).isSome = true ↔
      "var ".toList <+: line ∧ "_trampoline_addr uintptr".toList <:+ line) ∧
    (∀ fn, declName line = some fn →
      line = "var ".toList ++ fn ++ "_trampoline_addr uintptr".toList) ∧
    (∀ st, scanLine st line =
      match declName line with
      | none => st
      | some fn => recordName st fn) := by
  refine ⟨?_, ?_, fun st => rfl⟩
  · constructor
    · exact declName_isSome line
    · rintro ⟨hp, hs⟩
      obtain ⟨fn, hfn⟩ := decl_markers_apart line hp hs
      rw [hfn, declName_of_decl]
      rfl
  · intro fn h
    exact declName_eq_some line fn h

/-- C2, at a line: the declaration of `libc_open`. -/
theorem declName_spec_witness :
    declName "var libc_open_trampoline_addr uintptr".toList = some "libc_open".toList ∧
    "var libc_open_trampoline_addr uintptr".toList
      = "var ".toList ++ "libc_open".toList ++ "_trampoline_addr uintptr".toList :=
  ⟨by decide,
   (declName_spec "var libc_open_trampoline_addr uintptr".toList).2.1 "libc_open".toList
     (by decide)⟩

/-! ## The map -/

theorem GoMap.get_empty (k : GoString) : GoMap.empty.get k = false := rfl

theorem GoMap.find_filter_ne (l : List (GoString × Bool)) (k k' : GoString) (h : k ≠ k') :
    (l.filter (fun e => e.1 ≠ k)).find? (fun e => e.1 = k') = l.find? (fun e => e.1 = k') := by
  induction l with
  | nil => rfl
  | cons e l ih =>
    by_cases hk : e.1 = k
    · have hk' : ¬ e.1 = k' := fun h' => h (hk.symm.trans h')
      rw [List.filter_cons_of_neg (by simpa using hk),
        List.find?_cons_of_neg _ (by simpa using hk'), ih]
    · rw [List.filter_cons_of_pos (by simpa using hk)]
      by_cases hk' : e.1 = k'
      · rw [List.find?_cons_of_pos _ (by simpa using hk'),
          List.find?_cons_of_pos _ (by simpa using hk')]
      · rw [List.find?_cons_of_neg _ (by simpa using hk'),
          List.find?_cons_of_neg _ (by simpa using hk'), ih]

theorem GoMap.get_set (m : GoMap) (k k' : GoString) (v : Bool) :
    (m.set k v).get k' = if k = k' then v else m.get k' := by
  unfold GoMap.get GoMap.set
  by_cases h : k = k'
  · simp [List.find?_cons, h]
  · simp only [List.find?_cons, h, decide_False, if_false]
    rw [GoMap.find_filter_ne _ _ _ h]

/-! ## The scan -/

theorem firstSeen_append (acc l1 l2 : List GoString) :
    firstSeen acc (l1 ++ l2) = firstSeen (firstSeen acc l1) l2 := by
  induction l1 generalizing acc with
  | nil => rfl
  | cons n ns ih =>
    simp only [List.cons_append, firstSeen]
    split <;> exact ih _

theorem firstSeen_prefix (acc l : List GoString) : acc <+: firstSeen acc l := by
  induction l generalizing acc with
  | nil => exact List.prefix_refl _
  | cons n ns ih =>
    simp only [firstSeen]
    split
    · exact ih _
    · exact (List.prefix_append acc [n]).trans (ih _)

theorem mem_firstSeen (acc l : List GoString) (x : GoString) :
    x ∈ firstSeen acc l ↔ x ∈ acc ∨ x ∈ l := by
  induction l generalizing acc with
  | nil => simp [firstSeen]
  | cons n ns ih =>
    simp only [firstSeen]
    split
    · rename_i h
      rw [ih, List.mem_cons]
      constructor
      · rintro (h1 | h1)
        · exact Or.inl h1
        · exact Or.inr (Or.inr h1)
      · rintro (h1 | h1 | h1)
        · exact Or.inl h1
        · exact Or.inl (h1 ▸ h)
        · exact Or.inr h1
    · rw [ih, List.mem_append, List.mem_singleton, List.mem_cons]
      tauto

theorem nodup_firstSeen (acc l : List GoString) (h : acc.Nodup) : (firstSeen acc l).Nodup := by
  induction l generalizing acc with
  | nil => exact h
  | cons n ns ih =>
    simp only [firstSeen]
    split
    · exact ih _ h
    · rename_i hn
      apply ih
      rw [List.nodup_append]
      refine ⟨h, List.nodup_singleton n, ?_⟩
      intro a ha hb
      rw [List.mem_singleton] at hb
      exact hn (hb ▸ ha)

theorem GoMap.keys_set_new (m : GoMap) (k : GoString) (v : Bool) (h : k ∉ m.keys) :
    (m.set k v).keys = k :: m.keys := by
  unfold GoMap.keys GoMap.set
  simp only [List.map_cons, List.cons.injEq, true_and]
  congr 1
  rw [List.filter_eq_self]
  intro e he
  simp only [ne_eq, decide_not, Bool.not_eq_true', decide_eq_false_iff_not]
  intro hk
  exact h (List.mem_map.2 ⟨e, he, hk⟩)

theorem recordName_spec (st : ScanState) (fn : GoString) (h : st.Agree) :
    (recordName st fn).Agree ∧
    (recordName st fn).orderedTrampolines = firstSeen st.orderedTrampolines [fn] := by
  unfold recordName
  by_cases hg : st.trampolines.get fn = true
  · have hm : fn ∈ st.orderedTrampolines := (h.1 fn).1 hg
    simp [hg, firstSeen, hm, h]
  · have hm : fn ∉ st.orderedTrampolines := fun hm => hg ((h.1 fn).2 hm)
    have hkey : fn ∉ st.trampolines.keys := fun hk => hm (h.2.mem_iff.1 hk)
    simp only [Bool.not_eq_true] at hg
    simp only [hg, Bool.not_false, if_true, firstSeen, hm, if_false]
    refine ⟨⟨?_, ?_⟩, trivial⟩
    · intro k
      simp only [GoMap.get_set, List.mem_append, List.mem_singleton]
      by_cases hk : fn = k
      · simp [hk]
      · rw [if_neg hk, h.1 k]
        constructor
        · exact Or.inl
        · rintro (h1 | h1)
          · exact h1
          · exact absurd h1.symm hk
    · show (st.trampolines.set fn true).keys.Perm (st.orderedTrampolines ++ [fn])
      rw [GoMap.keys_set_new _ _ _ hkey]
      exact (List.Perm.cons fn h.2).trans (List.perm_append_singleton fn _).symm

theorem scanLines_spec (lines : List GoString) (st : ScanState) (h : st.Agree) :
    (lines.foldl scanLine st).Agree ∧
    (lines.foldl scanLine st).orderedTrampolines
      = firstSeen st.orderedTrampolines (declNames lines) := by
  induction lines generalizing st with
  | nil => exact ⟨h, rfl⟩
  | cons l ls ih =>
    cases hd : declName l with
    | none =>
      have hs : scanLine st l = st := by unfold scanLine; rw [hd]
      have hn : declNames (l :: ls) = declNames ls := by
        simp only [declNames, List.filterMap_cons, hd]
      rw [List.foldl_cons, hs, hn]
      exact ih st h
    | some fn =>
      have hs : scanLine st l = recordName st fn := by unfold scanLine; rw [hd]
      have hn : declNames (l :: ls) = [fn] ++ declNames ls := by
        simp only [declNames, List.filterMap_cons, hd, List.singleton_append]
      have hr := recordName_spec st fn h
      have := ih (recordName st fn) hr.1
      rw [List.foldl_cons, hs, hn, firstSeen_append, ← hr.2]
      exact this

theorem scanFiles_lines (fs : FS) (inFileNames : List GoString) (st st' : ScanState)
    (h : scanFiles fs inFileNames st = .ok st') :
    st' = (inputLines fs inFileNames).foldl scanLine st := by
  induction inFileNames generalizing st with
  | nil =>
    simp only [scanFiles] at h
    injection h with h
    exact h.symm
  | cons n ns ih =>
    simp only [scanFiles] at h
    cases hr : fs.read n with
    | none => rw [hr] at h; cases h
    | some content =>
      rw [hr] at h
      have := ih _ h
      rw [this]
      simp [inputLines, List.filterMap_cons, hr, List.flatMap_cons, List.foldl_append, scanFile]

theorem agree_initial : (ScanState.mk GoMap.empty []).Agree :=
  ⟨fun k => by simp [GoMap.get_empty], List.Perm.refl _⟩

/-! ## The emission loop -/

theorem emitTrampoline_eq (goos arch : GoString) (ptrSize : Nat) (out fn : GoString) :
    emitTrampoline goos arch ptrSize out fn = out ++ trampolineBlock goos arch ptrSize fn := by
  unfold trampolineBlock emitTrampoline
  by_cases h : goos = "openbsd".toList ∧ arch = "ppc64".toList
  · simp only [if_pos h, List.append_assoc, List.nil_append]
  · simp only [if_neg h, List.append_assoc, List.nil_append]

theorem asmText_eq (args : Args) (goos arch : GoString) (ptrSize : Nat)
    (names : List GoString) :
    asmText args goos arch ptrSize names
      = asmHeader args ++ trampolineBlocks goos arch ptrSize names := by
  unfold asmText trampolineBlocks
  generalize asmHeader args = out
  induction names generalizing out with
  | nil => simp
  | cons fn fns ih =>
    rw [List.foldl_cons, ih, emitTrampoline_eq, List.flatMap_cons, List.append_assoc]

theorem trampolineBlocks_append (goos arch : GoString) (ptrSize : Nat)
    (l1 l2 : List GoString) :
    trampolineBlocks goos arch ptrSize (l1 ++ l2)
      = trampolineBlocks goos arch ptrSize l1 ++ trampolineBlocks goos arch ptrSize l2 := by
  unfold trampolineBlocks
  exact List.flatMap_append _ _ _

theorem trampolineBlocks_cons (goos arch : GoString) (ptrSize : Nat)
    (fn : GoString) (l : List GoString) :
    trampolineBlocks goos arch ptrSize (fn :: l)
      = trampolineBlock goos arch ptrSize fn ++ trampolineBlocks goos arch ptrSize l := by
  unfold trampolineBlocks
  exact List.flatMap_cons _ _ _

/-- A successful call of `generateASMFile`: the pointer size was resolved, the output file
holds the header and the blocks of the names in order of first occurrence, nothing
else changed, and the returned map holds exactly those names. -/
theorem generateASMFile_ok (args : Args) (goos arch : GoString)
    (inFileNames : List GoString) (outFileName : GoString) (fs fs' : FS) (m : GoMap)
    (h : generateASMFile args goos arch inFileNames outFileName fs = (fs', .ok m)) :
    ∃ ptrSize, archPtrSize arch = .ok ptrSize ∧
      fs.canWrite outFileName = true ∧
      fs' = fs.write outFileName
        (asmHeader args ++ trampolineBlocks goos arch ptrSize
          (firstSeen [] (declNames (inputLines fs inFileNames)))) ∧
      (∀ k, m.get k = true ↔ k ∈ firstSeen [] (declNames (inputLines fs inFileNames))) ∧
      m.keys.Perm (firstSeen [] (declNames (inputLines fs inFileNames))) := by
  unfold generateASMFile at h
  cases hs : scanFiles fs inFileNames ⟨GoMap.empty, []⟩ with
  | error e => rw [hs] at h; simp at h
  | ok st =>
    rw [hs] at h
    cases hp : archPtrSize arch with
    | error e => rw [hp] at h; simp at h
    | ok ptrSize =>
      rw [hp] at h
      simp only at h
      by_cases hw : fs.canWrite outFileName = true
      · rw [if_pos hw] at h
        injection h with h1 h2
        injection h2 with h2
        have hst := scanFiles_lines fs inFileNames _ st hs
        have hsp := scanLines_spec (inputLines fs inFileNames) _ agree_initial
        rw [← hst] at hsp
        simp only at hsp
        refine ⟨ptrSize, rfl, hw, ?_, ?_, ?_⟩
        · rw [← h1, asmText_eq, hsp.2]
        · intro k
          rw [← h2, hsp.1.1 k, hsp.2]
        · rw [← h2, ← hsp.2]
          exact hsp.1.2
      · rw [if_neg hw] at h
        simp at h

theorem FS.read_write_same (fs : FS) (name data : GoString) :
    (fs.write name data).read name = some data := by
  simp [FS.write]

theorem FS.read_write_other (fs : FS) (name data other : GoString) (h : other ≠ name) :
    (fs.write name data).read other = fs.read other := by
  simp [FS.write, h]

/-- Among names in order of first occurrence, a name met before the first occurrence of
another stands before it. -/
theorem firstSeen_order (l1 l2 : List GoString) (A B : GoString)
    (hA1 : A ∉ l1) (hAB : A ≠ B) (hA2 : A ∈ l2) :
    ∃ p q r, firstSeen [] (l1 ++ B :: l2) = p ++ B :: q ++ A :: r := by
  have hsplit : l1 ++ B :: l2 = (l1 ++ [B]) ++ l2 := by simp
  rw [hsplit, firstSeen_append]
  have hB : B ∈ firstSeen [] (l1 ++ [B]) := by
    rw [mem_firstSeen]; right; simp
  have hA : A ∉ firstSeen [] (l1 ++ [B]) := by
    rw [mem_firstSeen]
    simp only [List.not_mem_nil, false_or, List.mem_append, List.mem_singleton]
    rintro (h | h)
    · exact hA1 h
    · exact hAB h
  obtain ⟨rest, hrest⟩ := firstSeen_prefix (firstSeen [] (l1 ++ [B])) l2
  have hAz : A ∈ firstSeen (firstSeen [] (l1 ++ [B])) l2 := by
    rw [mem_firstSeen]; exact Or.inr hA2
  rw [← hrest] at hAz ⊢
  rcases List.mem_append.1 hAz with h | h
  · exact absurd h hA
  · obtain ⟨p, q, hpq⟩ := List.append_of_mem hB
    obtain ⟨r1, r2, hr⟩ := List.append_of_mem h
    refine ⟨p, q ++ r1, r2, ?_⟩
    rw [hpq, hr]
    simp

/-! ## Order of emission -/

/-- C3: in a successful run of `generateASMFile`, if a line declaring `B` is met before
the first line declaring `A` (files in list order, each from top to bottom), then the
assembly file holds the block of `B` before the block of `A`, each name having one
block only, whatever is declared again later. -/
theorem first_occurrence_order (args : Args) (goos arch : GoString)
    (inFileNames : List GoString) (outFileName : GoString) (fs fs' : FS) (m : GoMap)
    (hrun : generateASMFile args goos arch inFileNames outFileName fs = (fs', .ok m))
    (A B : GoString) (hAB : A ≠ B)
    (before after : List GoString) (lineB : GoString)
    (hlines : inputLines fs inFileNames = before ++ lineB :: after)
    (hB : declName lineB = some B)
    (hA1 : ∀ l ∈ before, declName l ≠ some A)
    (hA2 : ∃ l ∈ after, declName l = some A) :
    ∃ ptrSize p q r,
      archPtrSize arch = .ok ptrSize ∧
      (p ++ B :: q ++ A :: r).Nodup ∧
      fs'.read outFileName = some
        (asmHeader args
          ++ trampolineBlocks goos arch ptrSize p
          ++ trampolineBlock goos arch ptrSize B
          ++ trampolineBlocks goos arch ptrSize q
          ++ trampolineBlock goos arch ptrSize A
          ++ trampolineBlocks goos arch ptrSize r) := by
  obtain ⟨ptrSize, hp, _, hfs, _, _⟩ :=
    generateASMFile_ok args goos arch inFileNames outFileName fs fs' m hrun
  have hnames : declNames (inputLines fs inFileNames)
      = declNames before ++ B :: declNames after := by
    rw [hlines]
    simp only [declNames, List.filterMap_append, List.filterMap_cons, hB]
  have h1 : A ∉ declNames before := by
    intro h
    obtain ⟨l, hl, hd⟩ := List.mem_filterMap.1 h
    exact hA1 l hl hd
  have h2 : A ∈ declNames after := by
    obtain ⟨l, hl, hd⟩ := hA2
    exact List.mem_filterMap.2 ⟨l, hl, hd⟩
  obtain ⟨p, q, r, hpqr⟩ := firstSeen_order (declNames before) (declNames after) A B h1 hAB h2
  refine ⟨ptrSize, p, q, r, hp, ?_, ?_⟩
  · rw [← hpqr]
    exact nodup_firstSeen _ _ List.nodup_nil
  · rw [hfs, FS.read_write_same, hnames, hpqr]
    simp only [trampolineBlocks_append, trampolineBlocks_cons, List.append_assoc]

/-- C3, on the sample files: `libc_foo` (first file) is declared before `libc_bar`
(third file) and is declared once more after it. -/
theorem first_occurrence_order_witness :
    ∃ ptrSize p q r,
      archPtrSize "amd64".toList = .ok ptrSize ∧
      (p ++ "libc_foo".toList :: q ++ "libc_bar".toList :: r).Nodup ∧
      (generateASMFile sampleArgs "darwin".toList "amd64".toList sampleInputs
          "zsyscall_darwin_amd64.s".toList sampleFS).1.read "zsyscall_darwin_amd64.s".toList
        = some
          (asmHeader sampleArgs
            ++ trampolineBlocks "darwin".toList "amd64".toList ptrSize p
            ++ trampolineBlock "darwin".toList "amd64".toList ptrSize "libc_foo".toList
            ++ trampolineBlocks "darwin".toList "amd64".toList ptrSize q
            ++ trampolineBlock "darwin".toList "amd64".toList ptrSize "libc_bar".toList
            ++ trampolineBlocks "darwin".toList "amd64".toList ptrSize r) :=
  first_occurrence_order sampleArgs "darwin".toList "amd64".toList sampleInputs
    "zsyscall_darwin_amd64.s".toList sampleFS _ _ rfl
    "libc_bar".toList "libc_foo".toList (by decide)
    ["package unix".toList, []]
    ["".toList, "package unix".toList, "".toList,
      "var libc_bar_trampoline_addr uintptr".toList,
      "var libc_foo_trampoline_addr uintptr".toList]
    "var libc_foo_trampoline_addr uintptr".toList
    (by decide) (by decide) (by decide) (by decide)

/-! ## Lines of a text -/

theorem Split_ne_nil (s : GoString) (sep : Char) : Split s sep ≠ [] := by
  cases s with
  | nil => simp [Split]
  | cons c cs =>
    unfold Split
    split
    · simp
    · split <;> simp

theorem Split_append_sep (l rest : GoString) (sep : Char) (h : sep ∉ l) :
    Split (l ++ sep :: rest) sep = l :: Split rest sep := by
  induction l with
  | nil => simp [Split]
  | cons c cs ih =>
    have hc : c ≠ sep := fun hc => h (hc ▸ List.mem_cons_self _ _)
    have hcs : sep ∉ cs := fun hm => h (List.mem_cons_of_mem _ hm)
    rw [List.cons_append, Split, if_neg hc, ih hcs]

theorem Split_of_not_mem (l : GoString) (sep : Char) (h : sep ∉ l) : Split l sep = [l] := by
  induction l with
  | nil => rfl
  | cons c cs ih =>
    have hc : c ≠ sep := fun hc => h (hc ▸ List.mem_cons_self _ _)
    have hcs : sep ∉ cs := fun hm => h (List.mem_cons_of_mem _ hm)
    rw [Split, if_neg hc, ih hcs]

theorem not_mem_of_mem_Split (s : GoString) (sep : Char) :
    ∀ l ∈ Split s sep, sep ∉ l := by
  induction s with
  | nil =>
    intro l hl
    simp only [Split, List.mem_singleton] at hl
    subst hl
    exact List.not_mem_nil _
  | cons c cs ih =>
    intro l hl
    unfold Split at hl
    by_cases hc : c = sep
    · rw [if_pos hc] at hl
      rcases List.mem_cons.1 hl with h | h
      · subst h; exact List.not_mem_nil _
      · exact ih l h
    · rw [if_neg hc] at hl
      cases hsp : Split cs sep with
      | nil => exact absurd hsp (Split_ne_nil cs sep)
      | cons l0 ls =>
        rw [hsp] at hl ih
        simp only [List.mem_cons] at hl
        rcases hl with h | h
        · subst h
          intro hm
          rcases List.mem_cons.1 hm with h1 | h1
          · exact hc h1.symm
          · exact ih l0 (List.mem_cons_self _ _) h1
        · exact ih l (List.mem_cons_of_mem _ h)

theorem Split_unlines_append (ls : List GoString) (rest : GoString)
    (h : ∀ l ∈ ls, '\n' ∉ l) :
    Split (unlines ls ++ rest) '\n' = ls ++ Split rest '\n' := by
  induction ls with
  | nil => rfl
  | cons l ls ih =>
    have h1 : '\n' ∉ l := h l (List.mem_cons_self _ _)
    have h2 : ∀ l' ∈ ls, '\n' ∉ l' := fun l' hl' => h l' (List.mem_cons_of_mem _ hl')
    have : unlines (l :: ls) ++ rest = l ++ '\n' :: (unlines ls ++ rest) := by
      simp [unlines, List.flatMap_cons]
    rw [this, Split_append_sep _ _ _ h1, ih h2, List.cons_append]

theorem unlines_append (l1 l2 : List GoString) :
    unlines (l1 ++ l2) = unlines l1 ++ unlines l2 := by
  unfold unlines
  exact List.flatMap_append _ _ _

theorem declName_no_newline (line fn : GoString) (h : declName line = some fn)
    (hl : '\n' ∉ line) : '\n' ∉ fn := by
  have := declName_eq_some line fn h
  intro hm
  apply hl
  rw [this]
  simp [hm]

theorem inputLines_no_newline (fs : FS) (inFileNames : List GoString) :
    ∀ l ∈ inputLines fs inFileNames, '\n' ∉ l := by
  intro l hl
  unfold inputLines at hl
  obtain ⟨c, _, hc⟩ := List.mem_flatMap.1 hl
  exact not_mem_of_mem_Split c '\n' l hc

theorem declNames_no_newline (fs : FS) (inFileNames : List GoString) :
    ∀ fn ∈ declNames (inputLines fs inFileNames), '\n' ∉ fn := by
  intro fn hfn
  obtain ⟨l, hl, hd⟩ := List.mem_filterMap.1 hfn
  exact declName_no_newline l fn hd (inputLines_no_newline fs inFileNames l hl)

/-! ## The assembly text, line by line -/

theorem asmHeader_lines (args : Args) : asmHeader args = unlines (headerLines args) := by
  simp [asmHeader, unlines, headerLines, List.flatMap_cons]

theorem trampolineBlock_lines (goos arch : GoString) (ptrSize : Nat) (fn : GoString) :
    trampolineBlock goos arch ptrSize fn
      = unlines (blockLines goos arch (Nat.toDigits 10 ptrSize) fn) := by
  unfold trampolineBlock emitTrampoline blockLines
  by_cases h : goos = "openbsd".toList ∧ arch = "ppc64".toList
  · simp only [if_pos h]
    simp [unlines, List.flatMap_cons, textLine, callRetBody, globlLine, dataLine]
  · simp only [if_neg h]
    simp [unlines, List.flatMap_cons, textLine, jmpBody, globlLine, dataLine]

theorem trampolineBlocks_lines (goos arch : GoString) (ptrSize : Nat)
    (names : List GoString) :
    trampolineBlocks goos arch ptrSize names
      = unlines (names.flatMap (blockLines goos arch (Nat.toDigits 10 ptrSize))) := by
  induction names with
  | nil => rfl
  | cons fn fns ih =>
    rw [trampolineBlocks_cons, ih, trampolineBlock_lines, List.flatMap_cons, unlines_append]

theorem toDigits_ptrSize (arch : GoString) (ptrSize : Nat)
    (h : archPtrSize arch = .ok ptrSize) :
    (Nat.toDigits 10 ptrSize = "4".toList ∧ (arch = "386".toList ∨ arch = "arm".toList)) ∨
    (Nat.toDigits 10 ptrSize = "8".toList ∧
      (arch = "amd64".toList ∨ arch = "arm64".toList ∨ arch = "mips64".toList
        ∨ arch = "ppc64".toList ∨ arch = "riscv64".toList)) := by
  rcases archPtrSize_ok arch ptrSize h with ⟨h4, ha⟩ | ⟨h8, ha⟩
  · subst h4
    exact Or.inl ⟨by decide, ha⟩
  · subst h8
    exact Or.inr ⟨by decide, ha⟩

theorem blockLines_no_newline (goos arch P fn : GoString) (hP : '\n' ∉ P) (hfn : '\n' ∉ fn) :
    ∀ l ∈ blockLines goos arch P fn, '\n' ∉ l := by
  intro l hl
  unfold blockLines at hl
  by_cases h : goos = "openbsd".toList ∧ arch = "ppc64".toList
  · rw [if_pos h] at hl
    simp only [callRetBody, List.cons_append, List.nil_append, List.mem_cons,
      List.mem_singleton, List.not_mem_nil, or_false] at hl
    rcases hl with h | h | h | h | h | h <;> subst h <;>
      simp [textLine, globlLine, dataLine, hP, hfn]
  · rw [if_neg h] at hl
    simp only [jmpBody, List.cons_append, List.nil_append, List.mem_cons,
      List.mem_singleton, List.not_mem_nil, or_false] at hl
    rcases hl with h | h | h | h | h <;> subst h <;>
      simp [textLine, globlLine, dataLine, hP, hfn]

theorem Join_no_newline (elems : List GoString) (h : ∀ a ∈ elems, '\n' ∉ a) :
    '\n' ∉ Join elems " ".toList := by
  induction elems with
  | nil => simp [Join]
  | cons a rest ih =>
    cases rest with
    | nil => simpa [Join] using h a (List.mem_cons_self _ _)
    | cons b rest' =>
      have ha := h a (List.mem_cons_self _ _)
      have hr := ih (fun x hx => h x (List.mem_cons_of_mem _ hx))
      simp only [Join, List.mem_append, not_or]
      exact ⟨⟨ha, by decide⟩, hr⟩

theorem headerLines_no_newline (args : Args) (h : ∀ a ∈ args.rest, '\n' ∉ a) :
    ∀ l ∈ headerLines args, '\n' ∉ l := by
  intro l hl
  have hj := Join_no_newline args.rest h
  simp only [headerLines, List.mem_cons, List.mem_singleton, List.not_mem_nil, or_false] at hl
  rcases hl with h | h | h | h <;> subst h
  · simpa using hj
  · decide
  · decide
  · decide

/-- The lines of the assembly text when no argument of the command line and no name
holds a newline: the header lines, the lines of each block, and the empty piece after
the last newline. -/
theorem Split_asmText (args : Args) (goos arch P : GoString) (names : List GoString)
    (hargs : ∀ a ∈ args.rest, '\n' ∉ a) (hP : '\n' ∉ P) (hn : ∀ fn ∈ names, '\n' ∉ fn) :
    Split (unlines (headerLines args) ++ unlines (names.flatMap (blockLines goos arch P))) '\n'
      = headerLines args ++ names.flatMap (blockLines goos arch P) ++ [[]] := by
  rw [← unlines_append]
  have := Split_unlines_append (headerLines args ++ names.flatMap (blockLines goos arch P)) []
    (by
      intro l hl
      rcases List.mem_append.1 hl with h | h
      · exact headerLines_no_newline args hargs l h
      · obtain ⟨fn, hfn, hl'⟩ := List.mem_flatMap.1 h
        exact blockLines_no_newline goos arch P fn hP (hn fn hfn) l hl')
  rw [List.append_nil] at this
  rw [this]
  rfl

theorem filter_flatMap_singleton {α β : Type} (p : β → Bool) (f : α → List β) (g : α → β)
    (l : List α) (h : ∀ a, (f a).filter p = [g a]) :
    (l.flatMap f).filter p = l.map g := by
  induction l with
  | nil => rfl
  | cons a l ih => rw [List.flatMap_cons, List.filter_append, h, ih]; rfl

theorem blockLines_filter_TEXT (goos arch P fn : GoString) :
    (blockLines goos arch P fn).filter (fun l => HasPrefix l "TEXT ".toList) = [textLine fn] := by
  unfold blockLines
  by_cases h : goos = "openbsd".toList ∧ arch = "ppc64".toList
  · simp only [if_pos h]
    simp [List.filter_cons, HasPrefix, textLine, callRetBody, globlLine, dataLine]
  · simp only [if_neg h]
    simp [List.filter_cons, HasPrefix, textLine, jmpBody, globlLine, dataLine]

theorem blockLines_filter_GLOBL (goos arch P fn : GoString) :
    (blockLines goos arch P fn).filter (fun l => HasPrefix l "GLOBL".toList)
      = [globlLine P fn] := by
  unfold blockLines
  by_cases h : goos = "openbsd".toList ∧ arch = "ppc64".toList
  · simp only [if_pos h]
    simp [List.filter_cons, HasPrefix, textLine, callRetBody, globlLine, dataLine]
  · simp only [if_neg h]
    simp [List.filter_cons, HasPrefix, textLine, jmpBody, globlLine, dataLine]

theorem blockLines_filter_DATA (goos arch P fn : GoString) :
    (blockLines goos arch P fn).filter (fun l => HasPrefix l "DATA".toList)
      = [dataLine P fn] := by
  unfold blockLines
  by_cases h : goos = "openbsd".toList ∧ arch = "ppc64".toList
  · simp only [if_pos h]
    simp [List.filter_cons, HasPrefix, textLine, callRetBody, globlLine, dataLine]
  · simp only [if_neg h]
    simp [List.filter_cons, HasPrefix, textLine, jmpBody, globlLine, dataLine]

theorem headerLines_filter (args : Args) (pre : GoString)
    (hpre : pre = "TEXT ".toList ∨ pre = "GLOBL".toList ∨ pre = "DATA".toList) :
    (headerLines args).filter (fun l => HasPrefix l pre) = [] := by
  rcases hpre with h | h | h <;> subst h <;>
    simp [headerLines, List.filter_cons, HasPrefix]

theorem length_firstSeen (names : List GoString) :
    (firstSeen [] names).length = names.toFinset.card := by
  rw [← List.toFinset_card_of_nodup (nodup_firstSeen [] names List.nodup_nil)]
  congr 1
  ext x
  simp [mem_firstSeen]

/-- C4 as stated fails: with the operating-system argument `"linux\nTEXT x"` and input
files without any declaration line (N = 0), the header comment of the assembly file
runs over two lines and the second one begins with "TEXT ". -/
theorem asm_line_counts_counterexample :
    (declNames (inputLines newlineFS newlineInputs)).toFinset.card = 0 ∧
    (generateASMFile newlineArgs "linux\nTEXT x".toList "amd64".toList newlineInputs
        "zsyscall_linux\nTEXT x_amd64.s".toList newlineFS).2.isOk = true ∧
    ((generateASMFile newlineArgs "linux\nTEXT x".toList "amd64".toList newlineInputs
        "zsyscall_linux\nTEXT x_amd64.s".toList newlineFS).1.read
          "zsyscall_linux\nTEXT x_amd64.s".toList).map (linesWith "TEXT ".toList)
      = some ["TEXT x amd64".toList] := by
  refine ⟨by decide, by decide, by decide⟩

/-- C4, amended: when no argument of the command line holds a newline, a successful run
of `generateASMFile` over input files declaring N distinct names writes an assembly text
with exactly N lines beginning "TEXT ", N beginning "GLOBL" and N beginning "DATA": the
opening line, the GLOBL line and the DATA line of each distinct name, once each. -/
theorem asm_line_counts (args : Args) (goos arch : GoString)
    (inFileNames : List GoString) (outFileName : GoString) (fs fs' : FS) (m : GoMap)
    (hrun : generateASMFile args goos arch inFileNames outFileName fs = (fs', .ok m))
    (hargs : ∀ a ∈ args.rest, '\n' ∉ a) :
    ∃ (text : GoString) (names : List GoString) (P : GoString),
      fs'.read outFileName = some text ∧
      names.Nodup ∧
      (∀ fn, fn ∈ names ↔ fn ∈ declNames (inputLines fs inFileNames)) ∧
      linesWith "TEXT ".toList text = names.map textLine ∧
      linesWith "GLOBL".toList text = names.map (globlLine P) ∧
      linesWith "DATA".toList text = names.map (dataLine P) ∧
      (linesWith "TEXT ".toList text).length
        = (declNames (inputLines fs inFileNames)).toFinset.card ∧
      (linesWith "GLOBL".toList text).length
        = (declNames (inputLines fs inFileNames)).toFinset.card ∧
      (linesWith "DATA".toList text).length
        = (declNames (inputLines fs inFileNames)).toFinset.card := by
  obtain ⟨ptrSize, hp, _, hfs, _, _⟩ :=
    generateASMFile_ok args goos arch inFileNames outFileName fs fs' m hrun
  have hP : '\n' ∉ Nat.toDigits 10 ptrSize := by
    rcases toDigits_ptrSize arch ptrSize hp with ⟨h, _⟩ | ⟨h, _⟩ <;> rw [h] <;> decide
  have hn : ∀ fn ∈ firstSeen [] (declNames (inputLines fs inFileNames)), '\n' ∉ fn := by
    intro fn hfn
    rw [mem_firstSeen] at hfn
    rcases hfn with h | h
    · exact absurd h (List.not_mem_nil _)
    · exact declNames_no_newline fs inFileNames fn h
  have hsplit := Split_asmText args goos arch (Nat.toDigits 10 ptrSize) _ hargs hP hn
  have hlen := length_firstSeen (declNames (inputLines fs inFileNames))
  have hT : linesWith "TEXT ".toList
      (asmHeader args ++ trampolineBlocks goos arch ptrSize
        (firstSeen [] (declNames (inputLines fs inFileNames))))
      = (firstSeen [] (declNames (inputLines fs inFileNames))).map textLine := by
    unfold linesWith
    rw [asmHeader_lines, trampolineBlocks_lines, hsplit, List.filter_append,
      List.filter_append, headerLines_filter args _ (Or.inl rfl),
      filter_flatMap_singleton _ _ textLine _ (blockLines_filter_TEXT goos arch _)]
    simp [HasPrefix]
  have hG : linesWith "GLOBL".toList
      (asmHeader args ++ trampolineBlocks goos arch ptrSize
        (firstSeen [] (declNames (inputLines fs inFileNames))))
      = (firstSeen [] (declNames (inputLines fs inFileNames))).map
          (globlLine (Nat.toDigits 10 ptrSize)) := by
    unfold linesWith
    rw [asmHeader_lines, trampolineBlocks_lines, hsplit, List.filter_append,
      List.filter_append, headerLines_filter args _ (Or.inr (Or.inl rfl)),
      filter_flatMap_singleton _ _ (globlLine (Nat.toDigits 10 ptrSize)) _
        (blockLines_filter_GLOBL goos arch _)]
    simp [HasPrefix]
  have hD : linesWith "DATA".toList
      (asmHeader args ++ trampolineBlocks goos arch ptrSize
        (firstSeen [] (declNames (inputLines fs inFileNames))))
      = (firstSeen [] (declNames (inputLines fs inFileNames))).map
          (dataLine (Nat.toDigits 10 ptrSize)) := by
    unfold linesWith
    rw [asmHeader_lines, trampolineBlocks_lines, hsplit, List.filter_append,
      List.filter_append, headerLines_filter args _ (Or.inr (Or.inr rfl)),
      filter_flatMap_singleton _ _ (dataLine (Nat.toDigits 10 ptrSize)) _
        (blockLines_filter_DATA goos arch _)]
    simp [HasPrefix]
  refine ⟨_, firstSeen [] (declNames (inputLines fs inFileNames)), Nat.toDigits 10 ptrSize,
    by rw [hfs, FS.read_write_same], nodup_firstSeen _ _ List.nodup_nil, ?_,
    hT, hG, hD, ?_, ?_, ?_⟩
  · intro fn; simp [mem_firstSeen]
  · rw [hT, List.length_map, hlen]
  · rw [hG, List.length_map, hlen]
  · rw [hD, List.length_map, hlen]

/-- C4 amended, on the sample files: two distinct names, declared three times in all. -/
theorem asm_line_counts_witness :
    (declNames (inputLines sampleFS sampleInputs)).toFinset.card = 2 ∧
    ∃ (text : GoString) (names : List GoString) (P : GoString),
      (generateASMFile sampleArgs "darwin".toList "amd64".toList sampleInputs
        "zsyscall_darwin_amd64.s".toList sampleFS).1.read "zsyscall_darwin_amd64.s".toList
        = some text ∧
      names.Nodup ∧
      (∀ fn, fn ∈ names ↔ fn ∈ declNames (inputLines sampleFS sampleInputs)) ∧
      linesWith "TEXT ".toList text = names.map textLine ∧
      linesWith "GLOBL".toList text = names.map (globlLine P) ∧
      linesWith "DATA".toList text = names.map (dataLine P) ∧
      (linesWith "TEXT ".toList text).length
        = (declNames (inputLines sampleFS sampleInputs)).toFinset.card ∧
      (linesWith "GLOBL".toList text).length
        = (declNames (inputLines sampleFS sampleInputs)).toFinset.card ∧
      (linesWith "DATA".toList text).length
        = (declNames (inputLines sampleFS sampleInputs)).toFinset.card :=
  ⟨by decide,
   asm_line_counts sampleArgs "darwin".toList "amd64".toList sampleInputs
    "zsyscall_darwin_amd64.s".toList sampleFS _ _ rfl (by decide)⟩

/-! ## Blocks and data entries -/

/-- The text of one round of the emission loop, spelled out. -/
theorem trampolineBlock_text (goos arch : GoString) (ptrSize : Nat) (fn : GoString) :
    trampolineBlock goos arch ptrSize fn
      = "\nTEXT ".toList ++ fn ++ "_trampoline<>(SB),NOSPLIT,$0-0\n".toList
        ++ (if goos = "openbsd".toList ∧ arch = "ppc64".toList then
              "\tCALL\t".toList ++ fn ++ "(SB)\n".toList ++ "\tRET\n".toList
            else "\tJMP\t".toList ++ fn ++ "(SB)\n".toList)
        ++ ("GLOBL\t·".toList ++ fn ++ "_trampoline_addr(SB), RODATA, $".toList
              ++ Nat.toDigits 10 ptrSize ++ "\n".toList
            ++ "DATA\t·".toList ++ fn ++ "_trampoline_addr(SB)/".toList
              ++ Nat.toDigits 10 ptrSize ++ ", $".toList ++ fn
              ++ "_trampoline<>(SB)\n".toList) := by
  unfold trampolineBlock emitTrampoline
  by_cases h : goos = "openbsd".toList ∧ arch = "ppc64".toList
  · simp only [if_pos h, List.append_assoc, List.nil_append]
  · simp only [if_neg h, List.append_assoc, List.nil_append]

/-- C5: in a successful run the data entry of every extracted name `fn` is the GLOBL line
of `fn_trampoline_addr` (RODATA, size `$P`) followed by the DATA line binding
`fn_trampoline_addr/P` to the label `fn_trampoline<>` of the TEXT line that opens the
same block, where `P` is 4 for "386" and "arm" and 8 for "amd64", "arm64", "mips64",
"ppc64" and "riscv64"; one `P` serves both lines and all blocks. -/
theorem data_entry_pointer_size (args : Args) (goos arch : GoString)
    (inFileNames : List GoString) (outFileName : GoString) (fs fs' : FS) (m : GoMap)
    (hrun : generateASMFile args goos arch inFileNames outFileName fs = (fs', .ok m)) :
    ∃ (P : GoString) (body : GoString → GoString) (names : List GoString),
      ((P = "4".toList ∧ (arch = "386".toList ∨ arch = "arm".toList)) ∨
       (P = "8".toList ∧
        (arch = "amd64".toList ∨ arch = "arm64".toList ∨ arch = "mips64".toList
          ∨ arch = "ppc64".toList ∨ arch = "riscv64".toList))) ∧
      names.Nodup ∧
      (∀ fn, fn ∈ names ↔ fn ∈ declNames (inputLines fs inFileNames)) ∧
      fs'.read outFileName = some
        (asmHeader args ++ names.flatMap (fun fn =>
          "\nTEXT ".toList ++ fn ++ "_trampoline<>(SB),NOSPLIT,$0-0\n".toList
            ++ body fn
            ++ ("GLOBL\t·".toList ++ fn ++ "_trampoline_addr(SB), RODATA, $".toList
                  ++ P ++ "\n".toList
                ++ "DATA\t·".toList ++ fn ++ "_trampoline_addr(SB)/".toList
                  ++ P ++ ", $".toList ++ fn ++ "_trampoline<>(SB)\n".toList))) := by
  obtain ⟨ptrSize, hp, _, hfs, _, _⟩ :=
    generateASMFile_ok args goos arch inFileNames outFileName fs fs' m hrun
  refine ⟨Nat.toDigits 10 ptrSize,
    fun fn => if goos = "openbsd".toList ∧ arch = "ppc64".toList then
        "\tCALL\t".toList ++ fn ++ "(SB)\n".toList ++ "\tRET\n".toList
      else "\tJMP\t".toList ++ fn ++ "(SB)\n".toList,
    firstSeen [] (declNames (inputLines fs inFileNames)),
    toDigits_ptrSize arch ptrSize hp, nodup_firstSeen _ _ List.nodup_nil, ?_, ?_⟩
  · intro fn; simp [mem_firstSeen]
  · rw [hfs, FS.read_write_same]
    unfold trampolineBlocks
    have hb : trampolineBlock goos arch ptrSize = _ :=
      funext (fun fn => trampolineBlock_text goos arch ptrSize fn)
    rw [hb]

/-- C5, on the sample files (architecture "amd64"). -/
theorem data_entry_pointer_size_witness :
    ∃ (P : GoString) (body : GoString → GoString) (names : List GoString),
      ((P = "4".toList ∧ ("amd64".toList = "386".toList ∨ "amd64".toList = "arm".toList)) ∨
       (P = "8".toList ∧
        ("amd64".toList = "amd64".toList ∨ "amd64".toList = "arm64".toList
          ∨ "amd64".toList = "mips64".toList ∨ "amd64".toList = "ppc64".toList
          ∨ "amd64".toList = "riscv64".toList))) ∧
      names.Nodup ∧
      (∀ fn, fn ∈ names ↔ fn ∈ declNames (inputLines sampleFS sampleInputs)) ∧
      (generateASMFile sampleArgs "darwin".toList "amd64".toList sampleInputs
        "zsyscall_darwin_amd64.s".toList sampleFS).1.read "zsyscall_darwin_amd64.s".toList
      = some
        (asmHeader sampleArgs ++ names.flatMap (fun fn =>
          "\nTEXT ".toList ++ fn ++ "_trampoline<>(SB),NOSPLIT,$0-0\n".toList
            ++ body fn
            ++ ("GLOBL\t·".toList ++ fn ++ "_trampoline_addr(SB), RODATA, $".toList
                  ++ P ++ "\n".toList
                ++ "DATA\t·".toList ++ fn ++ "_trampoline_addr(SB)/".toList
                  ++ P ++ ", $".toList ++ fn ++ "_trampoline<>(SB)\n".toList))) :=
  data_entry_pointer_size sampleArgs "darwin".toList "amd64".toList sampleInputs
    "zsyscall_darwin_amd64.s".toList sampleFS _ _ rfl

/-! ## Unknown architecture -/

theorem scanFiles_error (fs : FS) (inFileNames : List GoString) (st : ScanState) (e : Fatal)
    (h : scanFiles fs inFileNames st = .error e) :
    ∃ n ∈ inFileNames, fs.read n = none ∧ e = .readFile n := by
  induction inFileNames generalizing st with
  | nil => simp [scanFiles] at h
  | cons n ns ih =>
    simp only [scanFiles] at h
    cases hr : fs.read n with
    | none =>
      rw [hr] at h
      injection h with h
      exact ⟨n, List.mem_cons_self _ _, hr, h.symm⟩
    | some content =>
      rw [hr] at h
      obtain ⟨n', hn', h1, h2⟩ := ih _ h
      exact ⟨n', List.mem_cons_of_mem _ hn', h1, h2⟩

/-- With an architecture `archPtrSize` rejects, `generateASMFile` exits fatally and
leaves the file system as it was: on a read error if an input file cannot be read,
else on "Unknown arch". -/
theorem generateASMFile_unknown_arch (args : Args) (goos arch : GoString)
    (inFileNames : List GoString) (outFileName : GoString) (fs : FS)
    (harch : ∀ n, archPtrSize arch ≠ .ok n) :
    ∃ e, generateASMFile args goos arch inFileNames outFileName fs = (fs, .error e) ∧
      (e = .unknownArch arch ∨ ∃ n ∈ inFileNames, fs.read n = none ∧ e = .readFile n) := by
  unfold generateASMFile
  cases hs : scanFiles fs inFileNames ⟨GoMap.empty, []⟩ with
  | error e => exact ⟨e, rfl, Or.inr (scanFiles_error fs inFileNames _ e hs)⟩
  | ok st =>
    cases hp : archPtrSize arch with
    | ok n => exact absurd hp (harch n)
    | error e =>
      refine ⟨e, rfl, Or.inl ?_⟩
      exact archPtrSize_error arch e hp

/-- C6: for an architecture string that `archPtrSize` does not recognise, whatever the
operating system and the files, `generateASMFile` exits fatally without writing and the
run of `main` ends there, before `writeDarwinTest`; the file system is unchanged. -/
theorem unknown_arch_writes_nothing (rt : GoRuntime) (prog goos arch : GoString) (fs : FS)
    (harch : ¬ (arch = "386".toList ∨ arch = "arm".toList ∨ arch = "amd64".toList
        ∨ arch = "arm64".toList ∨ arch = "mips64".toList ∨ arch = "ppc64".toList
        ∨ arch = "riscv64".toList)) :
    (∀ (args : Args) (inFileNames : List GoString) (outFileName : GoString),
      ∃ e, generateASMFile args goos arch inFileNames outFileName fs = (fs, .error e) ∧
        (e = .unknownArch arch ∨ ∃ n ∈ inFileNames, fs.read n = none ∧ e = .readFile n)) ∧
    (∃ e, main rt ⟨prog, [goos, arch]⟩ fs = (fs, .error e) ∧
      (e = .unknownArch arch ∨ ∃ n, fs.read n = none ∧ e = .readFile n)) := by
  have hno : ∀ n, archPtrSize arch ≠ .ok n := by
    intro n hn
    rcases archPtrSize_ok arch n hn with ⟨_, ha⟩ | ⟨_, ha⟩
    · exact harch (ha.elim Or.inl (fun h => Or.inr (Or.inl h)))
    · exact harch (Or.inr (Or.inr ha))
  refine ⟨fun args inFileNames outFileName =>
    generateASMFile_unknown_arch args goos arch inFileNames outFileName fs hno, ?_⟩
  obtain ⟨e, he, hcase⟩ := generateASMFile_unknown_arch ⟨prog, [goos, arch]⟩ goos arch
    ["syscall_".toList ++ goos ++ ".go".toList,
     "syscall_".toList ++ goos ++ "_".toList ++ arch ++ ".go".toList,
     "zsyscall_".toList ++ goos ++ "_".toList ++ arch ++ ".go".toList]
    ("zsyscall_".toList ++ goos ++ "_".toList ++ arch ++ ".s".toList) fs hno
  refine ⟨e, ?_, ?_⟩
  · simp only [main]
    rw [he]
  · rcases hcase with h | ⟨n, _, h1, h2⟩
    · exact Or.inl h
    · exact Or.inr ⟨n, h1, h2⟩

/-- C6, on the sample files with the architecture "sparc64": the run ends on
"Unknown arch" although the operating system is darwin. -/
theorem unknown_arch_writes_nothing_witness :
    (∀ (args : Args) (inFileNames : List GoString) (outFileName : GoString),
      ∃ e, generateASMFile args "darwin".toList "sparc64".toList inFileNames outFileName
          sampleFS = (sampleFS, .error e) ∧
        (e = .unknownArch "sparc64".toList
          ∨ ∃ n ∈ inFileNames, sampleFS.read n = none ∧ e = .readFile n)) ∧
    (∃ e, main sampleRuntime ⟨"mkasm".toList, ["darwin".toList, "sparc64".toList]⟩ sampleFS
        = (sampleFS, .error e) ∧
      (e = .unknownArch "sparc64".toList ∨ ∃ n, sampleFS.read n = none ∧ e = .readFile n)) :=
  unknown_arch_writes_nothing sampleRuntime "mkasm".toList "darwin".toList "sparc64".toList
    sampleFS (by decide)

/-! ## The body of a block -/

/-- C7: in a successful run the block of every extracted name `fn` opens with the line
"TEXT fn_trampoline<>(SB),NOSPLIT,$0-0"; its body is the two lines "\tCALL\tfn(SB)",
"\tRET" exactly when the operating system is "openbsd" and the architecture "ppc64", and
the single line "\tJMP\tfn(SB)", with no CALL and no RET line, in every other case. -/
theorem trampoline_body (args : Args) (goos arch : GoString)
    (inFileNames : List GoString) (outFileName : GoString) (fs fs' : FS) (m : GoMap)
    (hrun : generateASMFile args goos arch inFileNames outFileName fs = (fs', .ok m)) :
    ∃ (body entry : GoString → GoString) (names : List GoString),
      names.Nodup ∧
      (∀ fn, fn ∈ names ↔ fn ∈ declNames (inputLines fs inFileNames)) ∧
      fs'.read outFileName = some
        (asmHeader args ++ names.flatMap (fun fn =>
          "\nTEXT ".toList ++ fn ++ "_trampoline<>(SB),NOSPLIT,$0-0\n".toList
            ++ body fn ++ entry fn)) ∧
      (∀ fn, HasPrefix (entry fn) "GLOBL\t·".toList = true) ∧
      (∀ fn, body fn = "\tCALL\t".toList ++ fn ++ "(SB)\n".toList ++ "\tRET\n".toList
        ↔ (goos = "openbsd".toList ∧ arch = "ppc64".toList)) ∧
      (∀ fn, body fn = "\tJMP\t".toList ++ fn ++ "(SB)\n".toList
        ↔ ¬ (goos = "openbsd".toList ∧ arch = "ppc64".toList)) ∧
      (∀ fn ∈ names, ¬ (goos = "openbsd".toList ∧ arch = "ppc64".toList) →
        linesWith "\tCALL".toList (body fn) = [] ∧ linesWith "\tRET".toList (body fn) = []) := by
  obtain ⟨ptrSize, hp, _, hfs, _, _⟩ :=
    generateASMFile_ok args goos arch inFileNames outFileName fs fs' m hrun
  refine ⟨fun fn => if goos = "openbsd".toList ∧ arch = "ppc64".toList then
        "\tCALL\t".toList ++ fn ++ "(SB)\n".toList ++ "\tRET\n".toList
      else "\tJMP\t".toList ++ fn ++ "(SB)\n".toList,
    fun fn => "GLOBL\t·".toList ++ fn ++ "_trampoline_addr(SB), RODATA, $".toList
              ++ Nat.toDigits 10 ptrSize ++ "\n".toList
            ++ "DATA\t·".toList ++ fn ++ "_trampoline_addr(SB)/".toList
              ++ Nat.toDigits 10 ptrSize ++ ", $".toList ++ fn
              ++ "_trampoline<>(SB)\n".toList,
    firstSeen [] (declNames (inputLines fs inFileNames)),
    nodup_firstSeen _ _ List.nodup_nil, ?_, ?_, ?_, ?_, ?_, ?_⟩
  · intro fn; simp [mem_firstSeen]
  · rw [hfs, FS.read_write_same]
    unfold trampolineBlocks
    have hb : trampolineBlock goos arch ptrSize = _ :=
      funext (fun fn => trampolineBlock_text goos arch ptrSize fn)
    rw [hb]
  · intro fn
    simp [HasPrefix]
  · intro fn
    by_cases h : goos = "openbsd".toList ∧ arch = "ppc64".toList
    · simp only [if_pos h]
      exact iff_of_true trivial h
    · simp only [if_neg h]
      refine iff_of_false ?_ h
      intro hh
      have := congrArg (fun l => l.get? 1) hh
      simp at this
  · intro fn
    by_cases h : goos = "openbsd".toList ∧ arch = "ppc64".toList
    · simp only [if_pos h]
      refine iff_of_false ?_ (not_not.2 h)
      intro hh
      have := congrArg (fun l => l.get? 1) hh
      simp at this
    · simp only [if_neg h]
      exact iff_of_true trivial h
  · intro fn hfn h
    have hnl : '\n' ∉ fn := by
      rw [mem_firstSeen] at hfn
      rcases hfn with h' | h'
      · exact absurd h' (List.not_mem_nil _)
      · exact declNames_no_newline fs inFileNames fn h'
    have hl : '\n' ∉ "\tJMP\t".toList ++ fn ++ "(SB)".toList := by
      simp [hnl]
    have hsp : Split ("\tJMP\t".toList ++ fn ++ "(SB)\n".toList) '\n'
        = ["\tJMP\t".toList ++ fn ++ "(SB)".toList, []] := by
      have := Split_append_sep ("\tJMP\t".toList ++ fn ++ "(SB)".toList) [] '\n' hl
      simpa [Split] using this
    simp only [if_neg h, linesWith, hsp]
    constructor <;> simp [List.filter_cons, HasPrefix]

/-- C7, on the sample files (darwin/amd64, hence JMP bodies). -/
theorem trampoline_body_witness :
    ∃ (body entry : GoString → GoString) (names : List GoString),
      names.Nodup ∧
      (∀ fn, fn ∈ names ↔ fn ∈ declNames (inputLines sampleFS sampleInputs)) ∧
      (generateASMFile sampleArgs "darwin".toList "amd64".toList sampleInputs
        "zsyscall_darwin_amd64.s".toList sampleFS).1.read "zsyscall_darwin_amd64.s".toList
      = some
        (asmHeader sampleArgs ++ names.flatMap (fun fn =>
          "\nTEXT ".toList ++ fn ++ "_trampoline<>(SB),NOSPLIT,$0-0\n".toList
            ++ body fn ++ entry fn)) ∧
      (∀ fn, HasPrefix (entry fn) "GLOBL\t·".toList = true) ∧
      (∀ fn, body fn = "\tCALL\t".toList ++ fn ++ "(SB)\n".toList ++ "\tRET\n".toList
        ↔ ("darwin".toList = "openbsd".toList ∧ "amd64".toList = "ppc64".toList)) ∧
      (∀ fn, body fn = "\tJMP\t".toList ++ fn ++ "(SB)\n".toList
        ↔ ¬ ("darwin".toList = "openbsd".toList ∧ "amd64".toList = "ppc64".toList)) ∧
      (∀ fn ∈ names,
        ¬ ("darwin".toList = "openbsd".toList ∧ "amd64".toList = "ppc64".toList) →
        linesWith "\tCALL".toList (body fn) = [] ∧ linesWith "\tRET".toList (body fn) = []) :=
  trampoline_body sampleArgs "darwin".toList "amd64".toList sampleInputs
    "zsyscall_darwin_amd64.s".toList sampleFS _ _ rfl

/-! ## `sort.Strings` -/

/-- The comparison of `sort.Strings` is the lexicographic order on code points. -/
theorem strLess_iff_lex (a b : GoString) :
    strLess a b = true ↔ List.Lex (fun x y : Char => x < y) a b := by
  induction a generalizing b with
  | nil =>
    cases b with
    | nil => simp [strLess, List.Lex.not_nil_right]
    | cons y ys => simp [strLess, List.Lex.nil]
  | cons x xs ih =>
    cases b with
    | nil => simp [strLess, List.Lex.not_nil_right]
    | cons y ys =>
      unfold strLess
      by_cases h1 : x.toNat < y.toNat
      · rw [if_pos h1]
        exact iff_of_true rfl (List.Lex.rel (Char.lt_def.2 h1))
      · rw [if_neg h1]
        by_cases h2 : y.toNat < x.toNat
        · rw [if_pos h2]
          refine iff_of_false (by simp) ?_
          intro hl
          cases hl with
          | cons _ => exact absurd h2 (Nat.lt_irrefl _)
          | rel h => exact h1 (Char.lt_def.1 h)
        · rw [if_neg h2]
          have hxy : x = y := by
            have : x.toNat = y.toNat := by omega
            exact Char.ext (UInt32.ext this)
          subst hxy
          rw [ih ys, List.Lex.cons_iff]

theorem strLE_iff (a b : GoString) :
    strLE a b ↔ ¬ List.Lex (fun x y : Char => x < y) b a := by
  unfold strLE
  rw [← strLess_iff_lex, Bool.not_eq_true]

theorem strLE_total (a b : GoString) : strLE a b ∨ strLE b a := by
  rw [strLE_iff, strLE_iff]
  by_cases h : List.Lex (fun x y : Char => x < y) b a
  · exact Or.inr (asymm h)
  · exact Or.inl h

theorem strLE_trans (a b c : GoString) (h1 : strLE a b) (h2 : strLE b c) : strLE a c := by
  rw [strLE_iff] at *
  intro h
  rcases IsOrderConnected.conn c b a h with h' | h'
  · exact h2 h'
  · exact h1 h'

theorem strLE_antisymm (a b : GoString) (h1 : strLE a b) (h2 : strLE b a) : a = b := by
  rw [strLE_iff] at *
  rcases trichotomous_of (List.Lex (fun x y : Char => x < y)) a b with h | h | h
  · exact absurd h h2
  · exact h
  · exact absurd h h1

theorem sortStrings_perm (l : List GoString) : (sortStrings l).Perm l :=
  List.perm_insertionSort _ _

theorem sortStrings_sorted (l : List GoString) : (sortStrings l).Sorted strLE := by
  haveI : IsTotal GoString strLE := ⟨strLE_total⟩
  haveI : IsTrans GoString strLE := ⟨strLE_trans⟩
  exact List.sorted_insertionSort _ _

/-- The result of `sort.Strings` depends on the strings only, not on their arrangement. -/
theorem sortStrings_eq_of_perm (l1 l2 : List GoString) (h : l1.Perm l2) :
    sortStrings l1 = sortStrings l2 := by
  haveI : IsAntisymm GoString strLE := ⟨strLE_antisymm⟩
  exact List.eq_of_perm_of_sorted
    ((sortStrings_perm l1).trans (h.trans (sortStrings_perm l2).symm))
    (sortStrings_sorted l1) (sortStrings_sorted l2)

/-- Distinct strings come out of `sort.Strings` in strictly ascending order. -/
theorem sortStrings_ascending (l : List GoString) (h : l.Nodup) :
    (sortStrings l).Pairwise (List.Lex (fun x y : Char => x < y)) := by
  have hs : (sortStrings l).Pairwise strLE := sortStrings_sorted l
  have hn : (sortStrings l).Pairwise (fun a b => a ≠ b) :=
    (sortStrings_perm l).nodup_iff.2 h
  refine List.Pairwise.imp₂ ?_ hs hn
  intro a b hab hne
  rw [strLE_iff] at hab
  rcases trichotomous_of (List.Lex (fun x y : Char => x < y)) a b with h' | h' | h'
  · exact h'
  · exact absurd h' hne
  · exact absurd h' hab

/-! ## `fmt.Fprintf` without operands -/

theorem doPrintfLoop_buf (n : Nat) (buf format : GoString) :
    doPrintfLoop n buf format = buf ++ doPrintfLoop n [] format := by
  induction n generalizing buf format with
  | zero => simp [doPrintfLoop]
  | succ n ih =>
    unfold doPrintfLoop
    simp only
    split
    · simp
    · rw [ih, ih ([] ++ _ ++ _)]
      simp

theorem Fprintf_append (out format : GoString) :
    Fprintf out format = out ++ Fprintf [] format :=
  doPrintfLoop_buf _ _ _

/-- A format without `%` is written as it is. -/
theorem Fprintf_of_no_percent (out format : GoString) (h : '%' ∉ format) :
    Fprintf out format = out ++ format := by
  have h1 : format.takeWhile (fun c => c ≠ '%') = format := by
    rw [List.takeWhile_eq_self_iff]
    intro c hc
    simp only [ne_eq, decide_not, Bool.not_eq_true', decide_eq_false_iff_not]
    intro hc'
    exact h (hc' ▸ hc)
  have h2 : format.dropWhile (fun c => c ≠ '%') = [] := by
    rw [List.dropWhile_eq_nil_iff]
    intro c hc
    simp only [ne_eq, decide_not, Bool.not_eq_true', decide_eq_false_iff_not]
    intro hc'
    exact h (hc' ▸ hc)
  unfold Fprintf doPrintfLoop
  simp only [h1, h2]

theorem darwinTestLines_eq (tbl : Char → Bool) (names : List GoString) :
    darwinTestLines tbl names
      = names.flatMap (fun fn => Fprintf [] (darwinTestLine tbl fn)) := by
  unfold darwinTestLines
  have : ∀ out : GoString,
      names.foldl (fun out fn => Fprintf out (darwinTestLine tbl fn)) out
        = out ++ names.flatMap (fun fn => Fprintf [] (darwinTestLine tbl fn)) := by
    induction names with
    | nil => intro out; simp
    | cons fn fns ih =>
      intro out
      rw [List.foldl_cons, ih, Fprintf_append, List.flatMap_cons, List.append_assoc]
  simpa using this []

/-! ## The test fixture -/

/-- What `writeDarwinTest` does when the file can be written: the template filled with
the arguments, the architecture and the entries of the sorted names. -/
theorem writeDarwinTest_writes (rt : GoRuntime) (args : Args) (trampolines : GoMap)
    (fileName arch : GoString) (fs : FS) (hw : fs.canWrite fileName = true) :
    writeDarwinTest rt args trampolines fileName arch fs
      = (fs.write fileName
          (darwinTestTemplate (Join args.rest " ".toList) arch
            ((sortStrings trampolines.keys).flatMap
              (fun fn => Fprintf [] (darwinTestLine rt.isPrintTable fn)))),
         .ok ()) := by
  unfold writeDarwinTest
  simp only [hw, if_true, darwinTestLines_eq]
  rw [sortStrings_eq_of_perm _ _ (rt.mapRange_perm trampolines)]

/-- The table that `writeDarwinTest` writes is what the rounds of its loop print, one
round for each key of the map, the keys taken in strictly ascending lexicographic order
however `range` enumerated the map.  What a round prints is the claimed entry when the
name holds no percent sign (`Fprintf_darwinTestLine`), and may be anything else,
without the closing newline even, when it holds one. -/
theorem darwin_test_sorted (rt : GoRuntime) (args : Args) (trampolines : GoMap)
    (fileName arch : GoString) (fs : FS) (hw : fs.canWrite fileName = true) :
    ∃ sorted : List GoString,
      sorted.Perm trampolines.keys ∧
      sorted.Nodup ∧
      sorted.Pairwise (List.Lex (fun x y : Char => x < y)) ∧
      sorted = sortStrings trampolines.keys ∧
      writeDarwinTest rt args trampolines fileName arch fs
        = (fs.write fileName
            (darwinTestTemplate (Join args.rest " ".toList) arch
              (sorted.flatMap (fun fn => Fprintf [] (darwinTestLine rt.isPrintTable fn)))),
           .ok ()) := by
  refine ⟨sortStrings trampolines.keys,
    sortStrings_perm _,
    (sortStrings_perm _).nodup_iff.2 trampolines.nodupKeys,
    sortStrings_ascending _ trampolines.nodupKeys,
    rfl, ?_⟩
  exact writeDarwinTest_writes rt args trampolines fileName arch fs hw

set_option maxRecDepth 20000 in
/-- C9 fails on a name with a percent sign: the scan extracts `libc_%d`, and the fixture
written by `main` holds for it the line `{"%!d(MISSING)", libc_%!d(MISSING)_trampoline_addr},`
in place of `{"%d", libc_%d_trampoline_addr},`, the `Sprintf` result having been used as
the format of `Fprintf`. -/
theorem darwin_test_entry_percent :
    declNames (inputLines percentFS sampleInputs) = ["libc_%d".toList] ∧
    darwinTestLine sampleRuntime.isPrintTable "libc_%d".toList
      = "\t\x7b\"%d\", libc_%d_trampoline_addr\x7d,\n".toList ∧
    (main sampleRuntime sampleArgs percentFS).1.read "darwin_amd64_test.go".toList
      = some
        ("// go run mkasm.go darwin amd64\n".toList
          ++ "// Code generated by the command above; DO NOT EDIT.\n".toList
          ++ "\n".toList
          ++ "//go:build darwin && go1.12\n".toList
          ++ "\n".toList
          ++ "package unix\n".toList
          ++ "\n".toList
          ++ "// All the _trampoline functions in zsyscall_darwin_amd64.s.\n".toList
          ++ "var darwinTests = [...]darwinTest\x7b\n".toList
          ++ "\t\x7b\"%!d(MISSING)\", libc_%!d(MISSING)_trampoline_addr\x7d,\n".toList
          ++ "\x7d\n".toList) ∧
    ¬ ("\t\x7b\"%d\", libc_%d_trampoline_addr\x7d,\n".toList
        <:+: ((main sampleRuntime sampleArgs percentFS).1.read
              "darwin_amd64_test.go".toList).getD []) := by
  refine ⟨by decide, by decide, by decide, by decide⟩

theorem lowerhex_ne_percent (n : Nat) : lowerhex n ≠ '%' := by
  unfold lowerhex
  by_cases h : n < 16
  · interval_cases n <;> decide
  · rw [List.getD_eq_default _ _ (by simpa using Nat.le_of_not_lt h)]
    decide

theorem appendEscapedRune_no_percent (tbl : Char → Bool) (buf : GoString) (r : Char)
    (hb : '%' ∉ buf) (hr : r ≠ '%') : '%' ∉ appendEscapedRune tbl buf r := by
  have hx := lowerhex_ne_percent
  have hx' : ∀ n, ¬ '%' = lowerhex n := fun n h => hx n h.symm
  have hr' : ¬ '%' = r := fun h => hr h.symm
  have key : ∀ esc : GoString, '%' ∉ esc → '%' ∉ buf ++ esc := by
    intro esc he hm
    rcases List.mem_append.1 hm with h | h
    · exact hb h
    · exact he h
  have ite_nm : ∀ (c : Prop) [Decidable c] (a b : GoString),
      '%' ∉ a → '%' ∉ b → '%' ∉ (if c then a else b) := by
    intro c _ a b ha hb
    split <;> assumption
  unfold appendEscapedRune
  repeat' apply ite_nm
  all_goals first
    | (apply key; decide)
    | (rw [List.append_assoc]; apply key
       simp only [List.mem_append, List.mem_cons, List.mem_singleton, List.not_mem_nil,
         List.map_cons, List.map_nil, hr', hx', or_false, false_or, not_false_eq_true,
         not_or, and_true]
       decide)
    | (apply key
       simp only [List.mem_cons, List.mem_singleton, List.not_mem_nil, hr', or_false,
         false_or, not_false_eq_true]
       try decide)

theorem Quote_no_percent (tbl : Char → Bool) (s : GoString) (h : '%' ∉ s) :
    '%' ∉ Quote tbl s := by
  unfold Quote
  have : ∀ buf : GoString, '%' ∉ buf → '%' ∉ s.foldl (appendEscapedRune tbl) buf := by
    induction s with
    | nil => intro buf hb; exact hb
    | cons c cs ih =>
      intro buf hb
      rw [List.foldl_cons]
      apply ih (fun hm => h (List.mem_cons_of_mem _ hm))
      exact appendEscapedRune_no_percent tbl buf c hb
        (fun hc => h (hc ▸ List.mem_cons_self _ _))
  have h0 := this ['"'] (by decide)
  simp [List.mem_append, h0]

theorem TrimPrefix_subset (s pre : GoString) (c : Char) (h : c ∈ TrimPrefix s pre) : c ∈ s := by
  unfold TrimPrefix at h
  split at h
  · exact List.mem_of_mem_drop h
  · exact h

/-- For a name without percent sign the loop of `writeDarwinTest` writes the `Sprintf`
result itself. -/
theorem Fprintf_darwinTestLine (tbl : Char → Bool) (out fn : GoString) (h : '%' ∉ fn) :
    Fprintf out (darwinTestLine tbl fn) = out ++ darwinTestLine tbl fn := by
  apply Fprintf_of_no_percent
  have hq := Quote_no_percent tbl (TrimPrefix fn "libc_".toList)
    (fun hm => h (TrimPrefix_subset _ _ _ hm))
  unfold darwinTestLine
  intro hm
  simp only [List.mem_append] at hm
  rcases hm with (((hm | hm) | hm) | hm) | hm
  · revert hm; decide
  · exact hq hm
  · revert hm; decide
  · exact h hm
  · revert hm; decide

/-! ### The loop of `doPrintf` never runs out of rounds -/

theorem skipFlags_length (s : List Char) : (skipFlags s).length ≤ s.length := by
  induction s with
  | nil => simp [skipFlags]
  | cons c cs ih =>
    unfold skipFlags
    split
    · exact Nat.le_succ_of_le ih
    · exact Nat.le_refl _

theorem argNumber_length (s : List Char) : (argNumber s).1.length ≤ s.length := by
  unfold argNumber
  split
  · simp only [List.length_drop]
    omega
  · exact Nat.le_refl _

theorem doWidth_length (s : List Char) (ai g : Bool) :
    (doWidth s ai g).2.1.length ≤ s.length := by
  unfold doWidth
  split
  · simp
  · simp only [List.length_drop]
    omega

theorem doPrecision_length (s : List Char) (ai g : Bool) :
    (doPrecision s ai g).2.1.length ≤ s.length := by
  unfold doPrecision
  split
  · rename_i t
    have h := argNumber_length t
    simp only
    split
    · rename_i t2 heq
      rw [heq] at h
      simp only [List.length_cons] at h ⊢
      omega
    · simp only [List.length_drop, List.length_cons]
      omega
  · exact Nat.le_refl _

theorem doLateIndex_length (s : List Char) (ai g : Bool) :
    (doLateIndex s ai g).1.length ≤ s.length := by
  unfold doLateIndex
  split
  · exact argNumber_length s
  · exact Nat.le_refl _

theorem doVerbChar_length (s : List Char) (g : Bool) :
    (doVerbChar s g).2.length ≤ s.length := by
  unfold doVerbChar
  split
  · simp
  · split_ifs <;> simp

theorem doVerb_length (s : List Char) : (doVerb s).2.length ≤ s.length := by
  unfold doVerb
  simp only
  have h1 := skipFlags_length s
  have h2 := argNumber_length (skipFlags s)
  generalize argNumber (skipFlags s) = A at h2 ⊢
  have h3 := doWidth_length A.1 A.2.1 A.2.2
  generalize doWidth A.1 A.2.1 A.2.2 = W at h3 ⊢
  have h4 := doPrecision_length W.2.1 W.2.2.1 W.2.2.2
  generalize doPrecision W.2.1 W.2.2.1 W.2.2.2 = Pr at h4 ⊢
  have h5 := doLateIndex_length Pr.2.1 Pr.2.2.1 Pr.2.2.2
  generalize doLateIndex Pr.2.1 Pr.2.2.1 Pr.2.2.2 = L at h5 ⊢
  have h6 := doVerbChar_length L.1 L.2
  omega

theorem dropWhile_length_le (s : List Char) (p : Char → Bool) :
    (s.dropWhile p).length ≤ s.length :=
  (List.dropWhile_suffix p).length_le

/-- Any number of rounds above the length of the format gives the same text: the loop
ends by itself at the end of the format. -/
theorem doPrintfLoop_fuel (n m : Nat) (buf format : GoString)
    (hn : format.length < n) (hm : format.length < m) :
    doPrintfLoop n buf format = doPrintfLoop m buf format := by
  induction n generalizing m buf format with
  | zero => omega
  | succ n ih =>
    cases m with
    | zero => omega
    | succ m =>
      unfold doPrintfLoop
      simp only
      have hd := dropWhile_length_le format (fun c => c ≠ '%')
      split
      · rfl
      · rename_i c afterPercent heq
        rw [heq] at hd
        have hv := doVerb_length afterPercent
        simp only [List.length_cons] at hd
        exact ih m _ _ (by omega) (by omega)

/-- The text `Fprintf` writes is the one the loop gives with any sufficient number of
rounds. -/
theorem Fprintf_total (n : Nat) (out format : GoString) (hn : format.length < n) :
    doPrintfLoop n out format = Fprintf out format :=
  doPrintfLoop_fuel n (format.length + 1) out format hn (Nat.lt_succ_self _)

/-! ## A whole run -/

theorem scanFiles_of_readable (fs : FS) (inFileNames : List GoString) (st : ScanState)
    (h : ∀ n ∈ inFileNames, (fs.read n).isSome = true) :
    ∃ st', scanFiles fs inFileNames st = .ok st' := by
  induction inFileNames generalizing st with
  | nil => exact ⟨st, rfl⟩
  | cons n ns ih =>
    have hn := h n (List.mem_cons_self _ _)
    cases hr : fs.read n with
    | none => rw [hr] at hn; cases hn
    | some content =>
      simp only [scanFiles, hr]
      exact ih _ (fun n' hn' => h n' (List.mem_cons_of_mem _ hn'))

/-- When every input file can be read, the architecture is known and the output file
can be written, `generateASMFile` returns: it writes the header and the blocks of the
names in order of first occurrence, and the map it returns has those names as keys. -/
theorem generateASMFile_returns (args : Args) (goos arch : GoString)
    (inFileNames : List GoString) (outFileName : GoString) (fs : FS) (ptrSize : Nat)
    (hread : ∀ n ∈ inFileNames, (fs.read n).isSome = true)
    (harch : archPtrSize arch = .ok ptrSize)
    (hw : fs.canWrite outFileName = true) :
    ∃ m : GoMap,
      generateASMFile args goos arch inFileNames outFileName fs
        = (fs.write outFileName
            (asmHeader args ++ trampolineBlocks goos arch ptrSize
              (firstSeen [] (declNames (inputLines fs inFileNames)))), .ok m) ∧
      m.keys.Perm (firstSeen [] (declNames (inputLines fs inFileNames))) := by
  obtain ⟨st, hst⟩ := scanFiles_of_readable fs inFileNames ⟨GoMap.empty, []⟩ hread
  have hrun : generateASMFile args goos arch inFileNames outFileName fs
      = (fs.write outFileName (asmText args goos arch ptrSize st.orderedTrampolines),
          .ok st.trampolines) := by
    unfold generateASMFile
    rw [hst]
    simp only [harch, hw, if_true]
  obtain ⟨p, hp, _, hfs, _, hk⟩ :=
    generateASMFile_ok args goos arch inFileNames outFileName fs _ _ hrun
  have hpp : p = ptrSize := by
    rw [harch] at hp
    injection hp with hp
    exact hp.symm
  subst hpp
  exact ⟨st.trampolines, by rw [hrun, hfs], hk⟩

theorem filterMap_filter_isSome {α β : Type} (f : α → Option β) (l : List α) :
    l.filterMap f = (l.filter (fun a => (f a).isSome)).filterMap f := by
  induction l with
  | nil => rfl
  | cons a l ih =>
    cases h : f a with
    | none => simp [List.filterMap_cons, List.filter_cons, h, ih]
    | some b => simp [List.filterMap_cons, List.filter_cons, h, ih]

set_option maxRecDepth 20000 in
theorem fixture_entries_bar_foo (tbl : Char → Bool) :
    ["libc_bar".toList, "libc_foo".toList].flatMap
        (fun fn => Fprintf [] (darwinTestLine tbl fn))
      = ("\t\x7b\"bar\", libc_bar_trampoline_addr\x7d,\n"
          ++ "\t\x7b\"foo\", libc_foo_trampoline_addr\x7d,\n").toList := by
  rfl

set_option maxRecDepth 20000 in
theorem asm_text_foo_bar (prog : GoString) :
    asmHeader ⟨prog, ["darwin".toList, "amd64".toList]⟩
        ++ trampolineBlocks "darwin".toList "amd64".toList 8
            ["libc_foo".toList, "libc_bar".toList]
      = fooBarAsm := by
  rfl

set_option maxRecDepth 20000 in
theorem fixture_text_bar_foo :
    darwinTestTemplate (Join ["darwin".toList, "amd64".toList] " ".toList) "amd64".toList
        ("\t\x7b\"bar\", libc_bar_trampoline_addr\x7d,\n"
          ++ "\t\x7b\"foo\", libc_foo_trampoline_addr\x7d,\n").toList
      = barFooFixture := by
  rfl

/-- The run of `main` on a command line with two arguments. -/
theorem main_two_args (rt : GoRuntime) (prog goos arch : GoString) (fs : FS) :
    main rt ⟨prog, [goos, arch]⟩ fs
      = match generateASMFile ⟨prog, [goos, arch]⟩ goos arch
          ["syscall_".toList ++ goos ++ ".go".toList,
           "syscall_".toList ++ goos ++ "_".toList ++ arch ++ ".go".toList,
           "zsyscall_".toList ++ goos ++ "_".toList ++ arch ++ ".go".toList]
          ("zsyscall_".toList ++ goos ++ "_".toList ++ arch ++ ".s".toList) fs with
        | (fs1, .error e) => (fs1, .error e)
        | (fs1, .ok trampolines) =>
          if goos = "darwin".toList then
            writeDarwinTest rt ⟨prog, [goos, arch]⟩ trampolines
              ("darwin_".toList ++ arch ++ "_test.go".toList) arch fs1
          else (fs1, .ok ()) :=
  rfl

/-- C10: `main` with the arguments "darwin" and "amd64", on three readable input files
whose only declaration lines are that of `libc_foo` followed by that of `libc_bar`,
writes to zsyscall_darwin_amd64.s the header and the two blocks, `libc_foo` then
`libc_bar`, each with a JMP body and size 8, then writes to darwin_amd64_test.go the
fixture whose table is the entry of `bar` followed by the entry of `foo`, and returns. -/
theorem end_to_end_darwin_amd64 (rt : GoRuntime) (prog : GoString) (fs : FS)
    (c1 c2 c3 : GoString)
    (h1 : fs.read "syscall_darwin.go".toList = some c1)
    (h2 : fs.read "syscall_darwin_amd64.go".toList = some c2)
    (h3 : fs.read "zsyscall_darwin_amd64.go".toList = some c3)
    (hdecl : (Split c1 '\n' ++ Split c2 '\n' ++ Split c3 '\n').filter
        (fun l => (declName l).isSome)
      = ["var libc_foo_trampoline_addr uintptr".toList,
         "var libc_bar_trampoline_addr uintptr".toList])
    (hw1 : fs.canWrite "zsyscall_darwin_amd64.s".toList = true)
    (hw2 : fs.canWrite "darwin_amd64_test.go".toList = true) :
    main rt ⟨prog, ["darwin".toList, "amd64".toList]⟩ fs
      = ((fs.write "zsyscall_darwin_amd64.s".toList fooBarAsm).write
            "darwin_amd64_test.go".toList barFooFixture,
         .ok ()) := by
  have n1 : "syscall_darwin.go".toList
      = "syscall_".toList ++ "darwin".toList ++ ".go".toList := by decide
  have n2 : "syscall_darwin_amd64.go".toList
      = "syscall_".toList ++ "darwin".toList ++ "_".toList ++ "amd64".toList
        ++ ".go".toList := by decide
  have n3 : "zsyscall_darwin_amd64.go".toList
      = "zsyscall_".toList ++ "darwin".toList ++ "_".toList ++ "amd64".toList
        ++ ".go".toList := by decide
  have n4 : "zsyscall_darwin_amd64.s".toList
      = "zsyscall_".toList ++ "darwin".toList ++ "_".toList ++ "amd64".toList
        ++ ".s".toList := by decide
  have n5 : "darwin_amd64_test.go".toList
      = "darwin_".toList ++ "amd64".toList ++ "_test.go".toList := by decide
  rw [main_two_args, n4, n5]
  rw [n1] at h1
  rw [n2] at h2
  rw [n3] at h3
  rw [n4] at hw1
  rw [n5] at hw2
  generalize "syscall_".toList ++ "darwin".toList ++ ".go".toList = f1 at h1 ⊢
  generalize "syscall_".toList ++ "darwin".toList ++ "_".toList ++ "amd64".toList
    ++ ".go".toList = f2 at h2 ⊢
  generalize "zsyscall_".toList ++ "darwin".toList ++ "_".toList ++ "amd64".toList
    ++ ".go".toList = f3 at h3 ⊢
  generalize "zsyscall_".toList ++ "darwin".toList ++ "_".toList ++ "amd64".toList
    ++ ".s".toList = f4 at hw1 ⊢
  generalize "darwin_".toList ++ "amd64".toList ++ "_test.go".toList = f5 at hw2 ⊢
  have hread : ∀ n ∈ [f1, f2, f3], (fs.read n).isSome = true := by
    intro n hn
    simp only [List.mem_cons, List.mem_singleton, List.not_mem_nil, or_false] at hn
    rcases hn with h | h | h <;> subst h
    · rw [h1]; rfl
    · rw [h2]; rfl
    · rw [h3]; rfl
  obtain ⟨m, hgen, hkeys⟩ := generateASMFile_returns ⟨prog, ["darwin".toList, "amd64".toList]⟩
    "darwin".toList "amd64".toList [f1, f2, f3] f4 fs 8 hread rfl hw1
  have hlines : inputLines fs [f1, f2, f3]
      = Split c1 '\n' ++ Split c2 '\n' ++ Split c3 '\n' := by
    unfold inputLines
    rw [List.filterMap_cons_some h1, List.filterMap_cons_some h2,
      List.filterMap_cons_some h3]
    simp [List.flatMap_cons]
  have hnames : firstSeen [] (declNames (inputLines fs [f1, f2, f3]))
      = ["libc_foo".toList, "libc_bar".toList] := by
    rw [hlines]
    unfold declNames
    rw [filterMap_filter_isSome, hdecl]
    decide
  rw [hnames] at hgen hkeys
  have hsort : sortStrings m.keys = ["libc_bar".toList, "libc_foo".toList] := by
    rw [sortStrings_eq_of_perm _ _ hkeys]
    decide
  rw [hgen]
  simp only [if_true]
  have hw2' : (fs.write f4
      (asmHeader ⟨prog, ["darwin".toList, "amd64".toList]⟩
        ++ trampolineBlocks "darwin".toList "amd64".toList 8
          ["libc_foo".toList, "libc_bar".toList])).canWrite f5 = true := hw2
  rw [writeDarwinTest_writes _ _ _ _ _ _ hw2', hsort, fixture_entries_bar_foo,
    asm_text_foo_bar]
  have hfix : darwinTestTemplate
      (Join (Args.mk prog ["darwin".toList, "amd64".toList]).rest " ".toList) "amd64".toList
      ("\t\x7b\"bar\", libc_bar_trampoline_addr\x7d,\n"
        ++ "\t\x7b\"foo\", libc_foo_trampoline_addr\x7d,\n").toList
      = barFooFixture := fixture_text_bar_foo
  rw [hfix]

/-- C10, on the files of `fooBarFS`. -/
theorem end_to_end_darwin_amd64_witness :
    main sampleRuntime sampleArgs fooBarFS
      = ((fooBarFS.write "zsyscall_darwin_amd64.s".toList fooBarAsm).write
            "darwin_amd64_test.go".toList barFooFixture,
         .ok ()) :=
  end_to_end_darwin_amd64 sampleRuntime "mkasm".toList fooBarFS
    "package unix\n\nvar libc_foo_trampoline_addr uintptr\n".toList
    "package unix\n".toList
    "var libc_bar_trampoline_addr uintptr\n".toList
    rfl rfl rfl (by decide) rfl rfl

/-! ## The file operations of a run -/

/-- A fatal exit of `generateASMFile` leaves the file system as it was and is one of
three: a read error on an input file, "Unknown arch", or the failed write. -/
theorem generateASMFile_error (args : Args) (goos arch : GoString)
    (inFileNames : List GoString) (outFileName : GoString) (fs fs' : FS) (e : Fatal)
    (h : generateASMFile args goos arch inFileNames outFileName fs = (fs', .error e)) :
    fs' = fs ∧
    ((∃ n ∈ inFileNames, fs.read n = none ∧ e = .readFile n)
      ∨ e = .unknownArch arch ∨ e = .writeAsm outFileName) := by
  unfold generateASMFile at h
  cases hs : scanFiles fs inFileNames ⟨GoMap.empty, []⟩ with
  | error e' =>
    rw [hs] at h
    simp only [Prod.mk.injEq, Except.error.injEq] at h
    obtain ⟨h1, h2⟩ := h
    subst h2
    exact ⟨h1.symm, Or.inl (scanFiles_error fs inFileNames _ e' hs)⟩
  | ok st =>
    rw [hs] at h
    cases hp : archPtrSize arch with
    | error e' =>
      rw [hp] at h
      simp only [Prod.mk.injEq, Except.error.injEq] at h
      obtain ⟨h1, h2⟩ := h
      subst h2
      exact ⟨h1.symm, Or.inr (Or.inl (archPtrSize_error arch e' hp))⟩
    | ok ptrSize =>
      rw [hp] at h
      simp only at h
      by_cases hw : fs.canWrite outFileName = true
      · rw [if_pos hw] at h
        simp at h
      · rw [if_neg hw] at h
        simp only [Prod.mk.injEq, Except.error.injEq] at h
        exact ⟨h.1.symm, Or.inr (Or.inr h.2.symm)⟩

/-- The only fatal exit of `writeDarwinTest` is the failed write; it changes nothing. -/
theorem writeDarwinTest_error (rt : GoRuntime) (args : Args) (trampolines : GoMap)
    (fileName arch : GoString) (fs fs' : FS) (e : Fatal)
    (h : writeDarwinTest rt args trampolines fileName arch fs = (fs', .error e)) :
    fs' = fs ∧ e = .writeTest fileName := by
  unfold writeDarwinTest at h
  by_cases hw : fs.canWrite fileName = true
  · simp [hw] at h
  · simp only [hw, Bool.false_eq_true, if_false, Prod.mk.injEq, Except.error.injEq] at h
    exact ⟨h.1.symm, h.2.symm⟩

theorem FS.after_append (fs : FS) (a b : List FileOp) :
    fs.after (a ++ b) = (fs.after a).after b := by
  induction a generalizing fs with
  | nil => rfl
  | cons op ops ih =>
    cases op with
    | read n => exact ih fs
    | write n d =>
      simp only [List.cons_append, FS.after]
      split
      · exact ih _
      · exact ih _

theorem scanFilesOps_reads (fs : FS) (inFileNames : List GoString) :
    fs.after (scanFilesOps fs inFileNames) = fs ∧
    writtenNames (scanFilesOps fs inFileNames) = [] ∧
    readNames (scanFilesOps fs inFileNames) <+: inFileNames := by
  induction inFileNames with
  | nil => exact ⟨rfl, rfl, List.prefix_refl _⟩
  | cons n ns ih =>
    unfold scanFilesOps
    cases hr : fs.read n with
    | none =>
      refine ⟨rfl, rfl, ?_⟩
      simp only [readNames]
      exact ⟨ns, rfl⟩
    | some c =>
      simp only [FS.after, writtenNames, readNames]
      refine ⟨ih.1, ih.2.1, ?_⟩
      obtain ⟨t, ht⟩ := ih.2.2
      exact ⟨t, by rw [List.cons_append, ht]⟩

/-- When every input file can be read the scan reads each of them once, in order. -/
theorem scanFilesOps_of_readable (fs : FS) (inFileNames : List GoString)
    (h : ∀ n ∈ inFileNames, (fs.read n).isSome = true) :
    scanFilesOps fs inFileNames = inFileNames.map FileOp.read := by
  induction inFileNames with
  | nil => rfl
  | cons n ns ih =>
    have hn := h n (List.mem_cons_self _ _)
    unfold scanFilesOps
    cases hr : fs.read n with
    | none => rw [hr] at hn; cases hn
    | some c =>
      simp only [List.map_cons]
      rw [ih (fun n' hn' => h n' (List.mem_cons_of_mem _ hn'))]

/-- The file system `generateASMFile` leaves is the one its `os` calls produce. -/
theorem generateASMFile_after (args : Args) (goos arch : GoString)
    (inFileNames : List GoString) (outFileName : GoString) (fs : FS) :
    (generateASMFile args goos arch inFileNames outFileName fs).1
      = fs.after (generateASMFileOps args goos arch inFileNames outFileName fs) := by
  unfold generateASMFile generateASMFileOps
  rw [FS.after_append, (scanFilesOps_reads fs inFileNames).1]
  cases hs : scanFiles fs inFileNames ⟨GoMap.empty, []⟩ with
  | error e => rfl
  | ok st =>
    cases hp : archPtrSize arch with
    | error e => rfl
    | ok ptrSize =>
      simp only [FS.after]
      split <;> rfl

/-- The file system `main` leaves is the one its `os` calls produce. -/
theorem main_after (rt : GoRuntime) (args : Args) (fs : FS) :
    (main rt args fs).1 = fs.after (mainOps rt args fs) := by
  unfold main mainOps
  split
  · rename_i goos arch _
    simp only
    rw [FS.after_append, ← generateASMFile_after]
    generalize generateASMFile args goos arch _ _ fs = r
    obtain ⟨fs1, res⟩ := r
    cases res with
    | error e => rfl
    | ok t =>
      simp only
      by_cases hd : goos = "darwin".toList
      · simp only [if_pos hd, writeDarwinTestOps, writeDarwinTest, FS.after]
        split <;> rfl
      · simp only [if_neg hd]
        rfl
  · rfl

/-! ## The command line -/

/-- With anything but two arguments `main` exits on the usage message at once. -/
theorem main_bad_arity (rt : GoRuntime) (args : Args) (fs : FS)
    (h : args.rest.length ≠ 2) :
    main rt args fs = (fs, .error (.usage (args.prog :: args.rest))) ∧
    mainOps rt args fs = [] := by
  unfold main mainOps
  split
  · rename_i goos arch heq
    rw [heq] at h
    exact absurd rfl h
  · exact ⟨rfl, rfl⟩

/-- With two arguments `main` never exits on the usage message. -/
theorem main_two_args_not_usage (rt : GoRuntime) (args : Args) (fs : FS)
    (goos arch : GoString) (h : args.rest = [goos, arch]) (a : List GoString) :
    (main rt args fs).2 ≠ .error (.usage a) := by
  obtain ⟨prog, rest⟩ := args
  simp only at h
  subst h
  rw [main_two_args]
  intro hu
  cases hg : generateASMFile ⟨prog, [goos, arch]⟩ goos arch
      ["syscall_".toList ++ goos ++ ".go".toList,
       "syscall_".toList ++ goos ++ "_".toList ++ arch ++ ".go".toList,
       "zsyscall_".toList ++ goos ++ "_".toList ++ arch ++ ".go".toList]
      ("zsyscall_".toList ++ goos ++ "_".toList ++ arch ++ ".s".toList) fs with
  | mk fs1 res =>
    rw [hg] at hu
    cases res with
    | error e =>
      simp only at hu
      injection hu with hu
      subst hu
      rcases (generateASMFile_error _ _ _ _ _ _ _ _ hg).2 with ⟨n, _, _, h1⟩ | h1 | h1 <;>
        cases h1
    | ok t =>
      simp only at hu
      by_cases hd : goos = "darwin".toList
      · rw [if_pos hd] at hu
        cases hw : writeDarwinTest rt ⟨prog, [goos, arch]⟩ t
            ("darwin_".toList ++ arch ++ "_test.go".toList) arch fs1 with
        | mk fs2 res2 =>
          rw [hw] at hu
          simp only at hu
          subst hu
          cases (writeDarwinTest_error _ _ _ _ _ _ _ _ hw).2
      · rw [if_neg hd] at hu
        cases hu

/-- C11: `main` exits on the usage message exactly when the command line does not hold
two arguments (`len(os.Args) != 3`); it then calls neither `os.ReadFile` nor
`os.WriteFile` and leaves the file system as it was.  With two arguments the run is the
one of `generateASMFile`, then `writeDarwinTest`, with the first argument as operating
system and the second as architecture. -/
theorem usage_error_iff (rt : GoRuntime) (args : Args) (fs : FS) :
    ((∃ a, (main rt args fs).2 = .error (.usage a)) ↔ args.rest.length ≠ 2) ∧
    (args.rest.length ≠ 2 →
      main rt args fs = (fs, .error (.usage (args.prog :: args.rest))) ∧
      mainOps rt args fs = [] ∧
      readNames (mainOps rt args fs) = [] ∧
      writtenNames (mainOps rt args fs) = []) ∧
    (∀ goos arch, args.rest = [goos, arch] →
      main rt args fs
        = match generateASMFile args goos arch
            ["syscall_".toList ++ goos ++ ".go".toList,
             "syscall_".toList ++ goos ++ "_".toList ++ arch ++ ".go".toList,
             "zsyscall_".toList ++ goos ++ "_".toList ++ arch ++ ".go".toList]
            ("zsyscall_".toList ++ goos ++ "_".toList ++ arch ++ ".s".toList) fs with
          | (fs1, .error e) => (fs1, .error e)
          | (fs1, .ok trampolines) =>
            if goos = "darwin".toList then
              writeDarwinTest rt args trampolines
                ("darwin_".toList ++ arch ++ "_test.go".toList) arch fs1
            else (fs1, .ok ())) := by
  refine ⟨⟨?_, ?_⟩, ?_, ?_⟩
  · rintro ⟨a, ha⟩ hlen
    obtain ⟨prog, rest⟩ := args
    simp only at hlen
    match rest, hlen with
    | [goos, arch], _ =>
      exact main_two_args_not_usage rt ⟨prog, [goos, arch]⟩ fs goos arch rfl a ha
  · intro h
    exact ⟨_, by rw [(main_bad_arity rt args fs h).1]⟩
  · intro h
    have hb := main_bad_arity rt args fs h
    refine ⟨hb.1, hb.2, ?_, ?_⟩
    · rw [hb.2]; rfl
    · rw [hb.2]; rfl
  · intro goos arch h
    obtain ⟨prog, rest⟩ := args
    simp only at h
    subst h
    exact main_two_args rt prog goos arch fs

/-- C11, on the command line `mkasm darwin` (one argument) and the sample files. -/
theorem usage_error_iff_witness :
    ("darwin".toList :: ([] : List GoString)).length ≠ 2 ∧
    main sampleRuntime ⟨"mkasm".toList, ["darwin".toList]⟩ sampleFS
      = (sampleFS, .error (.usage ["mkasm".toList, "darwin".toList])) ∧
    mainOps sampleRuntime ⟨"mkasm".toList, ["darwin".toList]⟩ sampleFS = [] ∧
    readNames (mainOps sampleRuntime ⟨"mkasm".toList, ["darwin".toList]⟩ sampleFS) = [] ∧
    writtenNames (mainOps sampleRuntime ⟨"mkasm".toList, ["darwin".toList]⟩ sampleFS) = [] :=
  ⟨by decide,
   (usage_error_iff sampleRuntime ⟨"mkasm".toList, ["darwin".toList]⟩ sampleFS).2.1
     (by decide)⟩

/-! ## The files of a run -/

theorem scanFiles_ok_readable (fs : FS) (inFileNames : List GoString) (st st' : ScanState)
    (h : scanFiles fs inFileNames st = .ok st') :
    ∀ n ∈ inFileNames, (fs.read n).isSome = true := by
  induction inFileNames generalizing st with
  | nil => intro n hn; cases hn
  | cons n ns ih =>
    simp only [scanFiles] at h
    cases hr : fs.read n with
    | none => rw [hr] at h; cases h
    | some c =>
      rw [hr] at h
      intro n' hn'
      rcases List.mem_cons.1 hn' with h1 | h1
      · rw [h1, hr]; rfl
      · exact ih _ h n' h1

/-- The `os` calls of a call of `generateASMFile` that returns: one read per input file,
in order, then the write of the output file. -/
theorem generateASMFileOps_ok (args : Args) (goos arch : GoString)
    (inFileNames : List GoString) (outFileName : GoString) (fs fs' : FS) (m : GoMap)
    (h : generateASMFile args goos arch inFileNames outFileName fs = (fs', .ok m)) :
    ∃ text, fs' = fs.write outFileName text ∧
      generateASMFileOps args goos arch inFileNames outFileName fs
        = inFileNames.map FileOp.read ++ [.write outFileName text] := by
  unfold generateASMFile at h
  unfold generateASMFileOps
  cases hs : scanFiles fs inFileNames ⟨GoMap.empty, []⟩ with
  | error e => rw [hs] at h; simp at h
  | ok st =>
    rw [hs] at h
    cases hp : archPtrSize arch with
    | error e => rw [hp] at h; simp at h
    | ok ptrSize =>
      rw [hp] at h
      simp only at h
      by_cases hw : fs.canWrite outFileName = true
      · rw [if_pos hw] at h
        simp only [Prod.mk.injEq] at h
        refine ⟨_, h.1.symm, ?_⟩
        rw [scanFilesOps_of_readable fs inFileNames (scanFiles_ok_readable fs _ _ st hs)]
      · rw [if_neg hw] at h
        simp at h

/-- Whatever happens, `generateASMFile` reads input files only, from the first on in
the order of the list, and writes at most the output file. -/
theorem generateASMFileOps_frame (args : Args) (goos arch : GoString)
    (inFileNames : List GoString) (outFileName : GoString) (fs : FS) :
    readNames (generateASMFileOps args goos arch inFileNames outFileName fs) <+: inFileNames ∧
    (writtenNames (generateASMFileOps args goos arch inFileNames outFileName fs) = []
      ∨ writtenNames (generateASMFileOps args goos arch inFileNames outFileName fs)
          = [outFileName]) := by
  have hr := scanFilesOps_reads fs inFileNames
  have hrn : ∀ a b : List FileOp, readNames (a ++ b) = readNames a ++ readNames b := by
    intro a b
    induction a with
    | nil => rfl
    | cons op ops ih => cases op <;> simp [readNames, ih]
  have hwn : ∀ a b : List FileOp, writtenNames (a ++ b) = writtenNames a ++ writtenNames b := by
    intro a b
    induction a with
    | nil => rfl
    | cons op ops ih => cases op <;> simp [writtenNames, ih]
  unfold generateASMFileOps
  rw [hrn, hwn, hr.2.1]
  cases hs : scanFiles fs inFileNames ⟨GoMap.empty, []⟩ with
  | error e =>
    refine ⟨?_, Or.inl rfl⟩
    show readNames (scanFilesOps fs inFileNames) ++ [] <+: inFileNames
    rw [List.append_nil]
    exact hr.2.2
  | ok st =>
    cases hp : archPtrSize arch with
    | error e =>
      refine ⟨?_, Or.inl rfl⟩
      show readNames (scanFilesOps fs inFileNames) ++ [] <+: inFileNames
      rw [List.append_nil]
      exact hr.2.2
    | ok ptrSize =>
      refine ⟨?_, Or.inr rfl⟩
      show readNames (scanFilesOps fs inFileNames) ++ [] <+: inFileNames
      rw [List.append_nil]
      exact hr.2.2

theorem readNames_append (a b : List FileOp) :
    readNames (a ++ b) = readNames a ++ readNames b := by
  induction a with
  | nil => rfl
  | cons op ops ih => cases op <;> simp [readNames, ih]

theorem writtenNames_append (a b : List FileOp) :
    writtenNames (a ++ b) = writtenNames a ++ writtenNames b := by
  induction a with
  | nil => rfl
  | cons op ops ih => cases op <;> simp [writtenNames, ih]

theorem readNames_map_read (names : List GoString) :
    readNames (names.map FileOp.read) = names ∧ writtenNames (names.map FileOp.read) = [] := by
  induction names with
  | nil => exact ⟨rfl, rfl⟩
  | cons n ns ih => simp [readNames, writtenNames, ih.1, ih.2]

/-- The run of `main` on two arguments, with the derived file names. -/
theorem main_two_args_names (rt : GoRuntime) (prog goos arch : GoString) (fs : FS) :
    main rt ⟨prog, [goos, arch]⟩ fs
      = match generateASMFile ⟨prog, [goos, arch]⟩ goos arch (inputFileNames goos arch)
          (asmFileName goos arch) fs with
        | (fs1, .error e) => (fs1, .error e)
        | (fs1, .ok trampolines) =>
          if goos = "darwin".toList then
            writeDarwinTest rt ⟨prog, [goos, arch]⟩ trampolines (testFileName arch) arch fs1
          else (fs1, .ok ()) :=
  rfl

theorem mainOps_two_args (rt : GoRuntime) (prog goos arch : GoString) (fs : FS) :
    mainOps rt ⟨prog, [goos, arch]⟩ fs
      = generateASMFileOps ⟨prog, [goos, arch]⟩ goos arch (inputFileNames goos arch)
          (asmFileName goos arch) fs ++
        (match generateASMFile ⟨prog, [goos, arch]⟩ goos arch (inputFileNames goos arch)
            (asmFileName goos arch) fs with
         | (_, .error _) => []
         | (_, .ok trampolines) =>
           if goos = "darwin".toList then
             writeDarwinTestOps rt ⟨prog, [goos, arch]⟩ trampolines (testFileName arch) arch
           else []) :=
  rfl

/-- The write of `writeDarwinTest` carries the fixture text of the map. -/
theorem writeDarwinTestOps_eq (rt : GoRuntime) (args : Args) (trampolines : GoMap)
    (fileName arch : GoString) :
    writeDarwinTestOps rt args trampolines fileName arch
      = [.write fileName (fixtureText rt.isPrintTable args arch trampolines)] := by
  unfold writeDarwinTestOps fixtureText
  rw [darwinTestLines_eq, sortStrings_eq_of_perm _ _ (rt.mapRange_perm trampolines)]

/-- The reads and writes of `main` on two arguments, whatever the outcome. -/
theorem mainOps_frame (rt : GoRuntime) (prog goos arch : GoString) (fs : FS) :
    readNames (mainOps rt ⟨prog, [goos, arch]⟩ fs) <+: inputFileNames goos arch ∧
    (∀ n ∈ writtenNames (mainOps rt ⟨prog, [goos, arch]⟩ fs),
      n = asmFileName goos arch ∨ (goos = "darwin".toList ∧ n = testFileName arch)) := by
  rw [mainOps_two_args, readNames_append, writtenNames_append]
  have hf := generateASMFileOps_frame ⟨prog, [goos, arch]⟩ goos arch (inputFileNames goos arch)
    (asmFileName goos arch) fs
  have hgw : ∀ n ∈ writtenNames (generateASMFileOps ⟨prog, [goos, arch]⟩ goos arch
      (inputFileNames goos arch) (asmFileName goos arch) fs), n = asmFileName goos arch := by
    intro n hn
    rcases hf.2 with h | h
    · rw [h] at hn; cases hn
    · rw [h] at hn; exact List.mem_singleton.1 hn
  generalize generateASMFile ⟨prog, [goos, arch]⟩ goos arch (inputFileNames goos arch)
    (asmFileName goos arch) fs = r
  obtain ⟨fs1, res⟩ := r
  cases res with
  | error e =>
    simp only [readNames, writtenNames, List.append_nil]
    exact ⟨hf.1, fun n hn => Or.inl (hgw n hn)⟩
  | ok t =>
    by_cases hd : goos = "darwin".toList
    · simp only [if_pos hd, writeDarwinTestOps, readNames, writtenNames, List.append_nil]
      refine ⟨hf.1, ?_⟩
      intro n hn
      rcases List.mem_append.1 hn with h | h
      · exact Or.inl (hgw n h)
      · exact Or.inr ⟨hd, List.mem_singleton.1 h⟩
    · simp only [if_neg hd, readNames, writtenNames, List.append_nil]
      exact ⟨hf.1, fun n hn => Or.inl (hgw n hn)⟩

/-- A run of `main` on two arguments that returns: the three reads, the write of the
assembly file and, for darwin only, the write of the fixture of the returned map. -/
theorem main_ok_ops (rt : GoRuntime) (prog goos arch : GoString) (fs : FS)
    (hok : (main rt ⟨prog, [goos, arch]⟩ fs).2 = .ok ()) :
    ∃ (m : GoMap) (text : GoString),
      generateASMFile ⟨prog, [goos, arch]⟩ goos arch (inputFileNames goos arch)
          (asmFileName goos arch) fs = (fs.write (asmFileName goos arch) text, .ok m) ∧
      mainOps rt ⟨prog, [goos, arch]⟩ fs
        = (inputFileNames goos arch).map FileOp.read
          ++ [.write (asmFileName goos arch) text]
          ++ (if goos = "darwin".toList then
                [.write (testFileName arch)
                  (fixtureText rt.isPrintTable ⟨prog, [goos, arch]⟩ arch m)]
              else []) ∧
      (main rt ⟨prog, [goos, arch]⟩ fs).1
        = (if goos = "darwin".toList then
            (fs.write (asmFileName goos arch) text).write (testFileName arch)
              (fixtureText rt.isPrintTable ⟨prog, [goos, arch]⟩ arch m)
           else fs.write (asmFileName goos arch) text) := by
  rw [main_two_args_names] at hok ⊢
  rw [mainOps_two_args]
  cases hg : generateASMFile ⟨prog, [goos, arch]⟩ goos arch (inputFileNames goos arch)
      (asmFileName goos arch) fs with
  | mk fs1 res =>
    rw [hg] at hok
    cases res with
    | error e => cases hok
    | ok m =>
      obtain ⟨text, hfs1, hops⟩ := generateASMFileOps_ok _ _ _ _ _ _ _ _ hg
      subst hfs1
      refine ⟨m, text, rfl, ?_, ?_⟩
      · rw [hops]
        by_cases hd : goos = "darwin".toList
        · simp only [if_pos hd, writeDarwinTestOps_eq]
        · simp only [if_neg hd]
      · simp only at hok ⊢
        by_cases hd : goos = "darwin".toList
        · rw [if_pos hd] at hok
          rw [if_pos hd, if_pos hd]
          by_cases hw : (fs.write (asmFileName goos arch) text).canWrite (testFileName arch) = true
          · rw [writeDarwinTest_writes _ _ _ _ _ _ hw]
            rfl
          · exfalso
            unfold writeDarwinTest at hok
            simp only [hw, Bool.false_eq_true, if_false] at hok
            cases hok
        · rw [if_neg hd, if_neg hd]

/-- C12: on two arguments `main` gives the scan exactly the three names
"syscall_<os>.go", "syscall_<os>_<arch>.go", "zsyscall_<os>_<arch>.go", in that order,
and the name "zsyscall_<os>_<arch>.s" for the assembly; files are read in that order and
no other file is ever read; a run that returns has read the three, written the assembly
file and, exactly when the operating system is "darwin", written
"darwin_<arch>_test.go" with the fixture of the map the extraction returned; for any
other operating system the assembly file is the only file written. -/
theorem main_files (rt : GoRuntime) (prog goos arch : GoString) (fs : FS) :
    (inputFileNames goos arch
      = ["syscall_".toList ++ goos ++ ".go".toList,
         "syscall_".toList ++ goos ++ "_".toList ++ arch ++ ".go".toList,
         "zsyscall_".toList ++ goos ++ "_".toList ++ arch ++ ".go".toList]) ∧
    (asmFileName goos arch = "zsyscall_".toList ++ goos ++ "_".toList ++ arch ++ ".s".toList) ∧
    (testFileName arch = "darwin_".toList ++ arch ++ "_test.go".toList) ∧
    (main rt ⟨prog, [goos, arch]⟩ fs
      = match generateASMFile ⟨prog, [goos, arch]⟩ goos arch (inputFileNames goos arch)
          (asmFileName goos arch) fs with
        | (fs1, .error e) => (fs1, .error e)
        | (fs1, .ok trampolines) =>
          if goos = "darwin".toList then
            writeDarwinTest rt ⟨prog, [goos, arch]⟩ trampolines (testFileName arch) arch fs1
          else (fs1, .ok ())) ∧
    (readNames (mainOps rt ⟨prog, [goos, arch]⟩ fs) <+: inputFileNames goos arch) ∧
    ((∀ n ∈ inputFileNames goos arch, (fs.read n).isSome = true) →
      readNames (mainOps rt ⟨prog, [goos, arch]⟩ fs) = inputFileNames goos arch) ∧
    (∀ n ∈ writtenNames (mainOps rt ⟨prog, [goos, arch]⟩ fs),
      n = asmFileName goos arch ∨ (goos = "darwin".toList ∧ n = testFileName arch)) ∧
    ((main rt ⟨prog, [goos, arch]⟩ fs).2 = .ok () →
      ∃ (m : GoMap) (text : GoString),
        generateASMFile ⟨prog, [goos, arch]⟩ goos arch (inputFileNames goos arch)
            (asmFileName goos arch) fs = (fs.write (asmFileName goos arch) text, .ok m) ∧
        mainOps rt ⟨prog, [goos, arch]⟩ fs
          = (inputFileNames goos arch).map FileOp.read
            ++ [.write (asmFileName goos arch) text]
            ++ (if goos = "darwin".toList then
                  [.write (testFileName arch)
                    (fixtureText rt.isPrintTable ⟨prog, [goos, arch]⟩ arch m)]
                else []) ∧
        readNames (mainOps rt ⟨prog, [goos, arch]⟩ fs) = inputFileNames goos arch ∧
        writtenNames (mainOps rt ⟨prog, [goos, arch]⟩ fs)
          = asmFileName goos arch ::
              (if goos = "darwin".toList then [testFileName arch] else []) ∧
        (main rt ⟨prog, [goos, arch]⟩ fs).1
          = (if goos = "darwin".toList then
              (fs.write (asmFileName goos arch) text).write (testFileName arch)
                (fixtureText rt.isPrintTable ⟨prog, [goos, arch]⟩ arch m)
             else fs.write (asmFileName goos arch) text)) := by
  have hframe := mainOps_frame rt prog goos arch fs
  refine ⟨rfl, rfl, rfl, rfl, hframe.1, ?_, hframe.2, ?_⟩
  · intro hread
    rw [mainOps_two_args, readNames_append]
    have hscan : readNames (generateASMFileOps ⟨prog, [goos, arch]⟩ goos arch
        (inputFileNames goos arch) (asmFileName goos arch) fs) = inputFileNames goos arch := by
      unfold generateASMFileOps
      rw [readNames_append, scanFilesOps_of_readable fs _ hread, (readNames_map_read _).1]
      cases scanFiles fs (inputFileNames goos arch) ⟨GoMap.empty, []⟩ with
      | error e => exact List.append_nil _
      | ok st =>
        cases archPtrSize arch with
        | error e => exact List.append_nil _
        | ok p => exact List.append_nil _
    rw [hscan]
    generalize generateASMFile ⟨prog, [goos, arch]⟩ goos arch (inputFileNames goos arch)
      (asmFileName goos arch) fs = r
    obtain ⟨fs1, res⟩ := r
    cases res with
    | error e => exact List.append_nil _
    | ok t =>
      by_cases hd : goos = "darwin".toList
      · simp only [if_pos hd, writeDarwinTestOps, readNames, List.append_nil]
      · simp only [if_neg hd, readNames, List.append_nil]
  · intro hok
    obtain ⟨m, text, hg, hops, hfs⟩ := main_ok_ops rt prog goos arch fs hok
    refine ⟨m, text, hg, hops, ?_, ?_, hfs⟩
    · rw [hops, readNames_append, readNames_append, (readNames_map_read _).1]
      by_cases hd : goos = "darwin".toList
      · simp only [if_pos hd, readNames, List.append_nil]
      · simp only [if_neg hd, readNames, List.append_nil]
    · rw [hops, writtenNames_append, writtenNames_append, (readNames_map_read _).2]
      by_cases hd : goos = "darwin".toList
      · simp only [if_pos hd, writtenNames, List.nil_append, List.singleton_append]
      · simp only [if_neg hd, writtenNames, List.nil_append, List.append_nil]

/-- C12, on the run `mkasm darwin amd64` over the sample files, which returns. -/
theorem main_files_witness :
    (main sampleRuntime ⟨"mkasm".toList, ["darwin".toList, "amd64".toList]⟩ sampleFS).2
      = .ok () ∧
    readNames (mainOps sampleRuntime ⟨"mkasm".toList, ["darwin".toList, "amd64".toList]⟩
        sampleFS)
      = ["syscall_darwin.go".toList, "syscall_darwin_amd64.go".toList,
          "zsyscall_darwin_amd64.go".toList] ∧
    writtenNames (mainOps sampleRuntime ⟨"mkasm".toList, ["darwin".toList, "amd64".toList]⟩
        sampleFS)
      = ["zsyscall_darwin_amd64.s".toList, "darwin_amd64_test.go".toList] := by
  have h := (main_files sampleRuntime "mkasm".toList "darwin".toList "amd64".toList
    sampleFS).2.2.2.2.2.2.2 rfl
  obtain ⟨m, text, _, _, hr, hw, _⟩ := h
  exact ⟨rfl, hr.trans (by decide), hw.trans (by decide)⟩

/-! ## Deduplication -/

theorem nodup_map_append_right (names : List GoString) (suf : GoString) (h : names.Nodup) :
    (names.map (fun fn => fn ++ suf)).Nodup := by
  apply h.map
  intro a b hab
  exact List.append_cancel_right hab

/-- C13: in a run of `generateASMFile` that returns, the sequence of names whose blocks
make up the assembly file holds no name twice, so the labels `fn_trampoline<>` and the
globals `fn_trampoline_addr` of the blocks are pairwise distinct; the keys of the
returned map are exactly the names of that sequence (each with the value `true`), which
are exactly the names declared in the input files. -/
theorem dedup_invariant (args : Args) (goos arch : GoString)
    (inFileNames : List GoString) (outFileName : GoString) (fs fs' : FS) (m : GoMap)
    (hrun : generateASMFile args goos arch inFileNames outFileName fs = (fs', .ok m)) :
    ∃ (ptrSize : Nat) (names : List GoString),
      fs'.read outFileName
        = some (asmHeader args ++ names.flatMap (trampolineBlock goos arch ptrSize)) ∧
      names.Nodup ∧
      (names.map (fun fn => fn ++ "_trampoline<>".toList)).Nodup ∧
      (names.map (fun fn => fn ++ "_trampoline_addr".toList)).Nodup ∧
      (names.map textLine).Nodup ∧
      (∀ k, k ∈ m.keys ↔ k ∈ names) ∧
      (∀ k, m.get k = true ↔ k ∈ names) ∧
      m.keys.length = names.length ∧
      (∀ k, k ∈ names ↔ k ∈ declNames (inputLines fs inFileNames)) := by
  obtain ⟨ptrSize, _, _, hfs, hget, hkeys⟩ :=
    generateASMFile_ok args goos arch inFileNames outFileName fs fs' m hrun
  have hnd := nodup_firstSeen [] (declNames (inputLines fs inFileNames)) List.nodup_nil
  refine ⟨ptrSize, firstSeen [] (declNames (inputLines fs inFileNames)), ?_, hnd,
    nodup_map_append_right _ _ hnd, nodup_map_append_right _ _ hnd, ?_,
    fun k => hkeys.mem_iff, hget, hkeys.length_eq, ?_⟩
  · rw [hfs, FS.read_write_same]
    rfl
  · apply hnd.map
    intro a b hab
    unfold textLine at hab
    exact List.append_cancel_left (List.append_cancel_right hab)
  · intro k
    simp [mem_firstSeen]

/-- C13, on the sample files, where `libc_foo` is declared twice; the returned map is
the one filled with `libc_foo`, then `libc_bar`. -/
theorem dedup_invariant_witness :
    declNames (inputLines sampleFS sampleInputs)
      = ["libc_foo".toList, "libc_bar".toList, "libc_foo".toList] ∧
    ∃ (ptrSize : Nat) (names : List GoString),
      (generateASMFile sampleArgs "darwin".toList "amd64".toList sampleInputs
        "zsyscall_darwin_amd64.s".toList sampleFS).1.read "zsyscall_darwin_amd64.s".toList
        = some (asmHeader sampleArgs
            ++ names.flatMap (trampolineBlock "darwin".toList "amd64".toList ptrSize)) ∧
      names.Nodup ∧
      (names.map (fun fn => fn ++ "_trampoline<>".toList)).Nodup ∧
      (names.map (fun fn => fn ++ "_trampoline_addr".toList)).Nodup ∧
      (names.map textLine).Nodup ∧
      (∀ k, k ∈ ((GoMap.empty.set "libc_foo".toList true).set "libc_bar".toList true).keys
        ↔ k ∈ names) ∧
      (∀ k, ((GoMap.empty.set "libc_foo".toList true).set "libc_bar".toList true).get k = true
        ↔ k ∈ names) ∧
      ((GoMap.empty.set "libc_foo".toList true).set "libc_bar".toList true).keys.length
        = names.length ∧
      (∀ k, k ∈ names ↔ k ∈ declNames (inputLines sampleFS sampleInputs)) :=
  ⟨by decide,
   dedup_invariant sampleArgs "darwin".toList "amd64".toList sampleInputs
    "zsyscall_darwin_amd64.s".toList sampleFS _
    ((GoMap.empty.set "libc_foo".toList true).set "libc_bar".toList true) rfl⟩

/-! ## The fixture against the assembly file -/

theorem entries_of_no_percent (tbl : Char → Bool) (l : List GoString)
    (h : ∀ fn ∈ l, '%' ∉ fn) :
    l.flatMap (fun fn => Fprintf [] (darwinTestLine tbl fn)) = l.flatMap (darwinTestLine tbl) := by
  induction l with
  | nil => rfl
  | cons fn fns ih =>
    rw [List.flatMap_cons, List.flatMap_cons,
      Fprintf_darwinTestLine tbl [] fn (h fn (List.mem_cons_self _ _)),
      ih (fun fn' hfn' => h fn' (List.mem_cons_of_mem _ hfn'))]
    rfl

/-- When no name holds a percent sign the table of the fixture is made of the lines
`{"<name without libc_>", <name>_trampoline_addr},` of the keys, in sorted order. -/
theorem fixtureText_of_no_percent (tbl : Char → Bool) (args : Args) (arch : GoString)
    (m : GoMap) (h : ∀ fn ∈ m.keys, '%' ∉ fn) :
    fixtureText tbl args arch m
      = darwinTestTemplate (Join args.rest " ".toList) arch
          ((sortStrings m.keys).flatMap (darwinTestLine tbl)) := by
  unfold fixtureText
  rw [entries_of_no_percent tbl _
    (fun fn hfn => h fn ((sortStrings_perm m.keys).mem_iff.1 hfn))]

set_option maxRecDepth 20000 in
/-- C14 fails on a name with a percent sign: in the run `mkasm darwin amd64` over
`percentFS`, which returns, the assembly file has the block of `libc_%d` (its only TEXT
line is "TEXT libc_%d_trampoline<>(SB),NOSPLIT,$0-0"), while nothing in the fixture
refers to `libc_%d_trampoline_addr`: its only table line is
`{"%!d(MISSING)", libc_%!d(MISSING)_trampoline_addr},`. -/
theorem fixture_misses_percent_name :
    (main sampleRuntime sampleArgs percentFS).2 = .ok () ∧
    ((main sampleRuntime sampleArgs percentFS).1.read "zsyscall_darwin_amd64.s".toList).map
        (linesWith "TEXT ".toList)
      = some ["TEXT libc_%d_trampoline<>(SB),NOSPLIT,$0-0".toList] ∧
    ((main sampleRuntime sampleArgs percentFS).1.read "darwin_amd64_test.go".toList).map
        (linesWith "\t".toList)
      = some ["\t\x7b\"%!d(MISSING)\", libc_%!d(MISSING)_trampoline_addr\x7d,".toList] ∧
    ¬ ("libc_%d_trampoline_addr".toList
        <:+: ((main sampleRuntime sampleArgs percentFS).1.read
              "darwin_amd64_test.go".toList).getD []) := by
  refine ⟨rfl, by decide, by decide, by decide⟩

/-! ## Read failures -/

/-- The scan stops on the first input file that cannot be read. -/
theorem scanFiles_unreadable (fs : FS) (inFileNames : List GoString) (st : ScanState)
    (h : ∃ n ∈ inFileNames, fs.read n = none) :
    ∃ n ∈ inFileNames, fs.read n = none ∧ scanFiles fs inFileNames st = .error (.readFile n) := by
  induction inFileNames generalizing st with
  | nil =>
    obtain ⟨n, hn, _⟩ := h
    cases hn
  | cons n ns ih =>
    cases hr : fs.read n with
    | none =>
      exact ⟨n, List.mem_cons_self _ _, hr, by simp only [scanFiles, hr]⟩
    | some c =>
      have h' : ∃ n' ∈ ns, fs.read n' = none := by
        obtain ⟨n', hn', hnone⟩ := h
        rcases List.mem_cons.1 hn' with h1 | h1
        · rw [h1, hr] at hnone; cases hnone
        · exact ⟨n', h1, hnone⟩
      obtain ⟨n', hn', hnone, hs⟩ := ih (scanFile st c) h'
      exact ⟨n', List.mem_cons_of_mem _ hn', hnone, by simp only [scanFiles, hr, hs]⟩

/-- With an unreadable input file `generateASMFile` exits on the read error, having
written nothing, whatever the architecture and the other files. -/
theorem generateASMFile_unreadable (args : Args) (goos arch : GoString)
    (inFileNames : List GoString) (outFileName : GoString) (fs : FS)
    (h : ∃ n ∈ inFileNames, fs.read n = none) :
    ∃ n ∈ inFileNames, fs.read n = none ∧
      generateASMFile args goos arch inFileNames outFileName fs
        = (fs, .error (.readFile n)) ∧
      writtenNames (generateASMFileOps args goos arch inFileNames outFileName fs) = [] := by
  obtain ⟨n, hn, hnone, hs⟩ := scanFiles_unreadable fs inFileNames ⟨GoMap.empty, []⟩ h
  refine ⟨n, hn, hnone, ?_, ?_⟩
  · unfold generateASMFile
    rw [hs]
  · unfold generateASMFileOps
    rw [hs, writtenNames_append, (scanFilesOps_reads fs inFileNames).2.1]
    rfl

/-- C15: if at least one of the three input files of a run cannot be read,
`generateASMFile` exits fatally on "Failed to read file" without writing the assembly
file, and `main` ends there: the fixture is not written either and the file system is
left as it was, whatever the other input files contain. -/
theorem read_failure_fatal (rt : GoRuntime) (prog goos arch : GoString) (fs : FS)
    (h : ∃ n ∈ inputFileNames goos arch, fs.read n = none) :
    ∃ n ∈ inputFileNames goos arch, fs.read n = none ∧
      generateASMFile ⟨prog, [goos, arch]⟩ goos arch (inputFileNames goos arch)
          (asmFileName goos arch) fs = (fs, .error (.readFile n)) ∧
      main rt ⟨prog, [goos, arch]⟩ fs = (fs, .error (.readFile n)) ∧
      writtenNames (mainOps rt ⟨prog, [goos, arch]⟩ fs) = [] := by
  obtain ⟨n, hn, hnone, hg, hw⟩ := generateASMFile_unreadable ⟨prog, [goos, arch]⟩ goos arch
    (inputFileNames goos arch) (asmFileName goos arch) fs h
  refine ⟨n, hn, hnone, hg, ?_, ?_⟩
  · rw [main_two_args_names, hg]
  · rw [mainOps_two_args, writtenNames_append, hw, hg]
    rfl

/-- C15, on `missingFileFS`: the second input file cannot be read, the first and the
third are readable and declare `libc_foo` and `libc_bar`. -/
theorem read_failure_fatal_witness :
    missingFileFS.read "syscall_darwin_amd64.go".toList = none ∧
    declNames (inputLines missingFileFS (inputFileNames "darwin".toList "amd64".toList))
      = ["libc_foo".toList, "libc_bar".toList, "libc_foo".toList] ∧
    ∃ n ∈ inputFileNames "darwin".toList "amd64".toList,
      missingFileFS.read n = none ∧
      generateASMFile ⟨"mkasm".toList, ["darwin".toList, "amd64".toList]⟩ "darwin".toList
          "amd64".toList (inputFileNames "darwin".toList "amd64".toList)
          (asmFileName "darwin".toList "amd64".toList) missingFileFS
        = (missingFileFS, .error (.readFile n)) ∧
      main sampleRuntime ⟨"mkasm".toList, ["darwin".toList, "amd64".toList]⟩ missingFileFS
        = (missingFileFS, .error (.readFile n)) ∧
      writtenNames (mainOps sampleRuntime
          ⟨"mkasm".toList, ["darwin".toList, "amd64".toList]⟩ missingFileFS) = [] :=
  ⟨by decide, by decide,
   read_failure_fatal sampleRuntime "mkasm".toList "darwin".toList "amd64".toList
    missingFileFS ⟨"syscall_darwin_amd64.go".toList, by decide, by decide⟩⟩

/-! ## File names -/

/-- Two texts cut at a separator that their second parts do not hold are cut at the
same place. -/
theorem append_sep_inj (x x' a a' : GoString) (c : Char) (ha : c ∉ a) (ha' : c ∉ a')
    (h : x ++ c :: a = x' ++ c :: a') : x = x' ∧ a = a' := by
  rcases List.append_eq_append_iff.1 h with ⟨t, h1, h2⟩ | ⟨t, h1, h2⟩
  · cases t with
    | nil =>
      simp only [List.append_nil, List.nil_append, List.cons.injEq, true_and] at h1 h2
      exact ⟨h1.symm, h2⟩
    | cons d t' =>
      exfalso
      simp only [List.cons_append, List.cons.injEq] at h2
      apply ha
      rw [h2.2]
      simp
  · cases t with
    | nil =>
      simp only [List.append_nil, List.nil_append, List.cons.injEq, true_and] at h1 h2
      exact ⟨h1, h2.symm⟩
    | cons d t' =>
      exfalso
      simp only [List.cons_append, List.cons.injEq] at h2
      apply ha'
      rw [h2.2]
      simp

/-- No architecture that `archPtrSize` recognises holds an underscore. -/
theorem arch_no_underscore (arch : GoString) (p : Nat) (h : archPtrSize arch = .ok p) :
    '_' ∉ arch := by
  rcases archPtrSize_ok arch p h with ⟨_, h1 | h1⟩ | ⟨_, h1 | h1 | h1 | h1 | h1⟩ <;>
    subst h1 <;> decide

/-- C16: for architectures that `archPtrSize` recognises, the assembly file name
"zsyscall_<os>_<arch>.s" determines the pair: equal names come from equal operating
systems and equal architectures. -/
theorem asm_file_name_unambiguous (goos arch goos' arch' : GoString) (p p' : Nat)
    (harch : archPtrSize arch = .ok p) (harch' : archPtrSize arch' = .ok p')
    (heq : "zsyscall_".toList ++ goos ++ "_".toList ++ arch ++ ".s".toList
      = "zsyscall_".toList ++ goos' ++ "_".toList ++ arch' ++ ".s".toList) :
    goos = goos' ∧ arch = arch' ∧ asmFileName goos arch = asmFileName goos' arch' := by
  have h1 : "zsyscall_".toList ++ (goos ++ '_' :: arch) ++ ".s".toList
      = "zsyscall_".toList ++ (goos' ++ '_' :: arch') ++ ".s".toList := by
    simpa [List.append_assoc] using heq
  have h2 := List.append_cancel_left (List.append_cancel_right h1)
  obtain ⟨hg, ha⟩ := append_sep_inj goos goos' arch arch' '_'
    (arch_no_underscore arch p harch) (arch_no_underscore arch' p' harch') h2
  exact ⟨hg, ha, by rw [hg, ha]⟩

/-- C16, at the pair ("darwin", "arm64"). -/
theorem asm_file_name_unambiguous_witness :
    archPtrSize "arm64".toList = .ok 8 ∧
    "darwin".toList = "darwin".toList ∧ "arm64".toList = "arm64".toList ∧
    asmFileName "darwin".toList "arm64".toList = asmFileName "darwin".toList "arm64".toList :=
  ⟨rfl,
   asm_file_name_unambiguous "darwin".toList "arm64".toList "darwin".toList "arm64".toList
    8 8 rfl rfl rfl⟩

/-! ## Independence of the enumeration order -/

/-- The call of `writeDarwinTest`, in terms of the fixture text of the map. -/
theorem writeDarwinTest_eq (rt : GoRuntime) (args : Args) (trampolines : GoMap)
    (fileName arch : GoString) (fs : FS) :
    writeDarwinTest rt args trampolines fileName arch fs
      = if fs.canWrite fileName then
          (fs.write fileName (fixtureText rt.isPrintTable args arch trampolines), .ok ())
        else (fs, .error (.writeTest fileName)) := by
  by_cases hw : fs.canWrite fileName = true
  · rw [if_pos hw, writeDarwinTest_writes _ _ _ _ _ _ hw]
    rfl
  · rw [if_neg hw]
    unfold writeDarwinTest
    simp only [hw, Bool.false_eq_true, if_false]

/-- Maps with the same keys have the same fixture text. -/
theorem fixtureText_congr (tbl : Char → Bool) (args : Args) (arch : GoString) (m m' : GoMap)
    (h : ∀ k, k ∈ m.keys ↔ k ∈ m'.keys) :
    fixtureText tbl args arch m = fixtureText tbl args arch m' := by
  unfold fixtureText
  rw [sortStrings_eq_of_perm m.keys m'.keys
    ((List.perm_ext_iff_of_nodup m.nodupKeys m'.nodupKeys).2 h)]

/-- C17: the fixture that `writeDarwinTest` writes depends on the set of names, the
architecture and the command line only.  Two runtimes that enumerate maps in different
orders, given maps with the same keys, make the same call and leave the same file
system; and two darwin runs of `main` that return, on input files declaring the same set
of names in any order, leave the same text in the fixture file. -/
theorem fixture_order_independent (rt rt' : GoRuntime)
    (htbl : rt.isPrintTable = rt'.isPrintTable) :
    (∀ (args : Args) (m m' : GoMap) (fileName arch : GoString),
      (∀ k, k ∈ m.keys ↔ k ∈ m'.keys) →
      writeDarwinTestOps rt args m fileName arch = writeDarwinTestOps rt' args m' fileName arch ∧
      ∀ fs : FS, writeDarwinTest rt args m fileName arch fs
        = writeDarwinTest rt' args m' fileName arch fs) ∧
    (∀ (prog arch : GoString) (fsA fsB : FS),
      (main rt ⟨prog, ["darwin".toList, arch]⟩ fsA).2 = .ok () →
      (main rt' ⟨prog, ["darwin".toList, arch]⟩ fsB).2 = .ok () →
      (∀ k, k ∈ declNames (inputLines fsA (inputFileNames "darwin".toList arch))
        ↔ k ∈ declNames (inputLines fsB (inputFileNames "darwin".toList arch))) →
      ∃ text,
        (main rt ⟨prog, ["darwin".toList, arch]⟩ fsA).1.read (testFileName arch) = some text ∧
        (main rt' ⟨prog, ["darwin".toList, arch]⟩ fsB).1.read (testFileName arch)
          = some text) := by
  constructor
  · intro args m m' fileName arch hkeys
    constructor
    · rw [writeDarwinTestOps_eq, writeDarwinTestOps_eq, htbl,
        fixtureText_congr _ _ _ m m' hkeys]
    · intro fs
      rw [writeDarwinTest_eq, writeDarwinTest_eq, htbl, fixtureText_congr _ _ _ m m' hkeys]
  · intro prog arch fsA fsB hA hB hnames
    obtain ⟨mA, textA, hgA, _, hfsA⟩ := main_ok_ops rt prog "darwin".toList arch fsA hA
    obtain ⟨mB, textB, hgB, _, hfsB⟩ := main_ok_ops rt' prog "darwin".toList arch fsB hB
    rw [if_pos rfl] at hfsA hfsB
    obtain ⟨_, _, _, _, _, hkA⟩ := generateASMFile_ok _ _ _ _ _ _ _ _ hgA
    obtain ⟨_, _, _, _, _, hkB⟩ := generateASMFile_ok _ _ _ _ _ _ _ _ hgB
    have hkeys : ∀ k, k ∈ mA.keys ↔ k ∈ mB.keys := by
      intro k
      rw [hkA.mem_iff, hkB.mem_iff, mem_firstSeen, mem_firstSeen]
      simp only [List.not_mem_nil, false_or]
      exact hnames k
    refine ⟨fixtureText rt.isPrintTable ⟨prog, ["darwin".toList, arch]⟩ arch mA, ?_, ?_⟩
    · rw [hfsA, FS.read_write_same]
    · rw [hfsB, FS.read_write_same, ← htbl, fixtureText_congr _ _ _ mA mB hkeys]

/-- C17, on two runtimes with opposite enumeration orders: maps filled in opposite
orders give the same call, and the runs over `fooBarFS` and `barFooFS`, which declare
the two names in opposite orders, leave the same fixture. -/
theorem fixture_order_independent_witness :
    sampleRuntime.isPrintTable = reverseRuntime.isPrintTable ∧
    sampleRuntime.mapRange ((GoMap.empty.set "libc_foo".toList true).set "libc_bar".toList true)
      ≠ reverseRuntime.mapRange
          ((GoMap.empty.set "libc_foo".toList true).set "libc_bar".toList true) ∧
    (writeDarwinTestOps sampleRuntime sampleArgs
          ((GoMap.empty.set "libc_foo".toList true).set "libc_bar".toList true)
          "darwin_amd64_test.go".toList "amd64".toList
        = writeDarwinTestOps reverseRuntime sampleArgs
          ((GoMap.empty.set "libc_bar".toList true).set "libc_foo".toList true)
          "darwin_amd64_test.go".toList "amd64".toList ∧
      ∀ fs : FS,
        writeDarwinTest sampleRuntime sampleArgs
            ((GoMap.empty.set "libc_foo".toList true).set "libc_bar".toList true)
            "darwin_amd64_test.go".toList "amd64".toList fs
          = writeDarwinTest reverseRuntime sampleArgs
            ((GoMap.empty.set "libc_bar".toList true).set "libc_foo".toList true)
            "darwin_amd64_test.go".toList "amd64".toList fs) ∧
    ∃ text,
      (main sampleRuntime ⟨"mkasm".toList, ["darwin".toList, "amd64".toList]⟩ fooBarFS).1.read
          (testFileName "amd64".toList) = some text ∧
      (main reverseRuntime ⟨"mkasm".toList, ["darwin".toList, "amd64".toList]⟩ barFooFS).1.read
          (testFileName "amd64".toList) = some text :=
  ⟨rfl, by decide,
   (fixture_order_independent sampleRuntime reverseRuntime rfl).1 sampleArgs
     ((GoMap.empty.set "libc_foo".toList true).set "libc_bar".toList true)
     ((GoMap.empty.set "libc_bar".toList true).set "libc_foo".toList true)
     "darwin_amd64_test.go".toList "amd64".toList
     (fun k => List.Perm.mem_iff (by decide)),
   (fixture_order_independent sampleRuntime reverseRuntime rfl).2 "mkasm".toList
     "amd64".toList fooBarFS barFooFS rfl rfl
     (fun k => List.Perm.mem_iff (by decide))⟩

/-! ## Repeated input -/

theorem scanFiles_append (fs : FS) (a b : List GoString) (st : ScanState) :
    scanFiles fs (a ++ b) st
      = match scanFiles fs a st with
        | .error e => .error e
        | .ok st' => scanFiles fs b st' := by
  induction a generalizing st with
  | nil => rfl
  | cons n ns ih =>
    simp only [List.cons_append, scanFiles]
    cases fs.read n with
    | none => rfl
    | some c => exact ih _

/-- A line whose name is already recorded changes nothing. -/
theorem scanLines_noop (lines : List GoString) (st : ScanState) (h : st.Agree)
    (hin : ∀ fn ∈ declNames lines, fn ∈ st.orderedTrampolines) :
    lines.foldl scanLine st = st := by
  induction lines with
  | nil => rfl
  | cons l ls ih =>
    rw [List.foldl_cons]
    have hstep : scanLine st l = st := by
      unfold scanLine
      cases hd : declName l with
      | none => rfl
      | some fn =>
        have hfn : fn ∈ st.orderedTrampolines := by
          apply hin
          simp only [declNames, List.filterMap_cons, hd]
          exact List.mem_cons_self _ _
        have hg : st.trampolines.get fn = true := (h.1 fn).2 hfn
        simp only [recordName, hg, Bool.not_true, Bool.false_eq_true, if_false]
    rw [hstep]
    apply ih
    intro fn hfn
    apply hin
    unfold declNames at hfn ⊢
    rw [List.filterMap_cons]
    cases declName l with
    | none => exact hfn
    | some fn' => exact List.mem_cons_of_mem _ hfn

/-- The scan of readable files, as a fold over their lines. -/
theorem scanFiles_readable_eq (fs : FS) (inFileNames : List GoString) (st : ScanState)
    (h : ∀ n ∈ inFileNames, (fs.read n).isSome = true) :
    scanFiles fs inFileNames st = .ok ((inputLines fs inFileNames).foldl scanLine st) := by
  obtain ⟨st', hst'⟩ := scanFiles_of_readable fs inFileNames st h
  rw [hst', scanFiles_lines fs inFileNames st st' hst']

/-- Scanning further readable files that declare nothing new gives the scan state of
the first files. -/
theorem scanFiles_extra (fs : FS) (names extra : List GoString)
    (hread : ∀ n ∈ extra, (fs.read n).isSome = true)
    (hextra : ∀ fn ∈ declNames (inputLines fs extra), fn ∈ declNames (inputLines fs names)) :
    scanFiles fs (names ++ extra) ⟨GoMap.empty, []⟩ = scanFiles fs names ⟨GoMap.empty, []⟩ := by
  rw [scanFiles_append]
  cases hs : scanFiles fs names ⟨GoMap.empty, []⟩ with
  | error e => rfl
  | ok st =>
    simp only
    rw [scanFiles_readable_eq fs extra st hread]
    have hst := scanFiles_lines fs names _ st hs
    have hsp := scanLines_spec (inputLines fs names) _ agree_initial
    rw [← hst] at hsp
    rw [scanLines_noop _ st hsp.1]
    intro fn hfn
    rw [hsp.2, mem_firstSeen]
    exact Or.inr (hextra fn hfn)

/-- C18: a call of `generateASMFile` on input files followed by further readable files
whose declaration lines only name routines already declared in the first ones has the
outcome of the call on the first files alone: the same text written to the assembly
file and the same returned map (or the same fatal exit).  In particular listing every
input file twice changes nothing. -/
theorem scan_idempotent (args : Args) (goos arch : GoString) (names extra : List GoString)
    (outFileName : GoString) (fs : FS)
    (hread : ∀ n ∈ extra, (fs.read n).isSome = true)
    (hextra : ∀ fn ∈ declNames (inputLines fs extra), fn ∈ declNames (inputLines fs names)) :
    generateASMFile args goos arch (names ++ extra) outFileName fs
      = generateASMFile args goos arch names outFileName fs ∧
    generateASMFile args goos arch (names ++ names) outFileName fs
      = generateASMFile args goos arch names outFileName fs := by
  constructor
  · unfold generateASMFile
    rw [scanFiles_extra fs names extra hread hextra]
  · unfold generateASMFile
    have hdup : scanFiles fs (names ++ names) ⟨GoMap.empty, []⟩
        = scanFiles fs names ⟨GoMap.empty, []⟩ := by
      cases hs : scanFiles fs names ⟨GoMap.empty, []⟩ with
      | error e => rw [scanFiles_append, hs]
      | ok st =>
        rw [← hs]
        exact scanFiles_extra fs names names (scanFiles_ok_readable fs names _ st hs)
          (fun fn hfn => hfn)
    rw [hdup]

/-- C18, on the sample files: the third input file, which declares `libc_bar` and
`libc_foo`, is listed once more after the three. -/
theorem scan_idempotent_witness :
    declNames (inputLines sampleFS ["zsyscall_darwin_amd64.go".toList])
      = ["libc_bar".toList, "libc_foo".toList] ∧
    (generateASMFile sampleArgs "darwin".toList "amd64".toList
        (sampleInputs ++ ["zsyscall_darwin_amd64.go".toList])
        "zsyscall_darwin_amd64.s".toList sampleFS
      = generateASMFile sampleArgs "darwin".toList "amd64".toList sampleInputs
        "zsyscall_darwin_amd64.s".toList sampleFS ∧
     generateASMFile sampleArgs "darwin".toList "amd64".toList (sampleInputs ++ sampleInputs)
        "zsyscall_darwin_amd64.s".toList sampleFS
      = generateASMFile sampleArgs "darwin".toList "amd64".toList sampleInputs
        "zsyscall_darwin_amd64.s".toList sampleFS) :=
  ⟨by decide,
   scan_idempotent sampleArgs "darwin".toList "amd64".toList sampleInputs
    ["zsyscall_darwin_amd64.go".toList] "zsyscall_darwin_amd64.s".toList sampleFS
    (by decide) (by decide)⟩

/-! ## The entries of the fixture, name by name -/

/-- For a map whose names hold no percent sign, the table that `writeDarwinTest` writes
is made of the lines `\t{"<name without libc_>", <name>_trampoline_addr},`, one for each
key of the map and nothing else, in strictly ascending lexicographic order of the full
names. -/
theorem darwin_test_table_of_no_percent (rt : GoRuntime) (args : Args) (trampolines : GoMap)
    (fileName arch : GoString) (fs : FS) (hw : fs.canWrite fileName = true)
    (hp : ∀ fn ∈ trampolines.keys, '%' ∉ fn) :
    ∃ sorted : List GoString,
      sorted.Perm trampolines.keys ∧
      sorted.Nodup ∧
      sorted.Pairwise (List.Lex (fun x y : Char => x < y)) ∧
      writeDarwinTest rt args trampolines fileName arch fs
        = (fs.write fileName
            (darwinTestTemplate (Join args.rest " ".toList) arch
              (sorted.flatMap (fun fn =>
                "\t\x7b".toList ++ Quote rt.isPrintTable (TrimPrefix fn "libc_".toList)
                  ++ ", ".toList ++ fn ++ "_trampoline_addr\x7d,\n".toList))),
           .ok ()) := by
  refine ⟨sortStrings trampolines.keys,
    sortStrings_perm _,
    (sortStrings_perm _).nodup_iff.2 trampolines.nodupKeys,
    sortStrings_ascending _ trampolines.nodupKeys, ?_⟩
  rw [writeDarwinTest_writes rt args trampolines fileName arch fs hw,
    entries_of_no_percent rt.isPrintTable _
      (fun fn hfn => hp fn ((sortStrings_perm trampolines.keys).mem_iff.1 hfn))]
  rfl

set_option maxRecDepth 20000 in
/-- C8 fails on a set with a name that holds a percent sign: in the run
`mkasm darwin amd64` over `mergedFS`, which returns, the set of names is
{`libc_z`, `libc_%12345678d`} and the assembly file has a block for each, but the table
of the fixture is the single line `\t{"%!(NOVERB)\t{"z", libc_z_trampoline_addr},`: the round
of `libc_%12345678d` prints `\t{"%!(NOVERB)` and no newline, the `Sprintf` result having
been used as the format of `Fprintf`, so the two names do not have one entry each. -/
theorem darwin_test_entries_merged :
    declNames (inputLines mergedFS sampleInputs)
      = ["libc_z".toList, "libc_%12345678d".toList] ∧
    (main sampleRuntime sampleArgs mergedFS).2 = .ok () ∧
    ((main sampleRuntime sampleArgs mergedFS).1.read "zsyscall_darwin_amd64.s".toList).map
        (linesWith "TEXT ".toList)
      = some ["TEXT libc_z_trampoline<>(SB),NOSPLIT,$0-0".toList,
              "TEXT libc_%12345678d_trampoline<>(SB),NOSPLIT,$0-0".toList] ∧
    Fprintf [] (darwinTestLine sampleRuntime.isPrintTable "libc_%12345678d".toList)
      = "\t\x7b\"%!(NOVERB)".toList ∧
    (main sampleRuntime sampleArgs mergedFS).1.read "darwin_amd64_test.go".toList
      = some
        ("// go run mkasm.go darwin amd64\n".toList
          ++ "// Code generated by the command above; DO NOT EDIT.\n".toList
          ++ "\n".toList
          ++ "//go:build darwin && go1.12\n".toList
          ++ "\n".toList
          ++ "package unix\n".toList
          ++ "\n".toList
          ++ "// All the _trampoline functions in zsyscall_darwin_amd64.s.\n".toList
          ++ "var darwinTests = [...]darwinTest\x7b\n".toList
          ++ "\t\x7b\"%!(NOVERB)\t\x7b\"z\", libc_z_trampoline_addr\x7d,\n".toList
          ++ "\x7d\n".toList) ∧
    ((main sampleRuntime sampleArgs mergedFS).1.read "darwin_amd64_test.go".toList).map
        (fun text => (linesWith "\t".toList text).length)
      = some 1 := by
  refine ⟨by decide, rfl, by decide, by decide, by decide, by decide⟩

end Mkasm
